import Mathlib

/-!
Shallow embedding of the OpenSecrets 2020 election-data retrieval scripts
(`src/Notebook/retrievedata.py`, `src/Functions.py`, `src/data_pull.py`).

The scripts resolve a user-supplied U.S. state name or abbreviation to a
canonical abbreviation by fuzzy string matching (fuzzywuzzy's
`process.extractOne` with `fuzz.ratio`), validate district bounds against a
seat-count table, build an OpenSecrets request URL, and post-process the
fetched CSV rows.

External collaborators are modelled explicitly:
  * the two Wikipedia-derived reference tables are parameters (`List
    StateRecord` for the merged state/seat table, `List (String × String)`
    for the plain name/abbreviation table), since their contents are
    external data, not repository code;
  * the network is a parameter `net : String → Option (List RawRow)`
    (`none` models a non-success HTTP status, which the scripts turn into
    `raise_for_status`);
  * `print` calls and `requests.get` calls are recorded in an effect trace.

The third-party fuzzy matcher is modelled from its documented behaviour:
`fuzz.ratio` is difflib's `SequenceMatcher.ratio` (total size of matching
blocks, scaled to 0–100 and rounded half-to-even), and `process.extractOne`
pre-processes both query and choices (drop non-alphanumerics, lowercase,
strip) and returns the first choice attaining the maximal score.
-/

namespace OpenSecrets

/-- Characters Python's `str.split()` (no argument) treats as whitespace. -/
def pyIsSpace (c : Char) : Bool :=
  c = ' ' || c = '\t' || c = '\n' || c = '\r' || c = Char.ofNat 11 || c = Char.ofNat 12

theorem length_dropWhile_le (p : Char → Bool) : ∀ l : List Char, (l.dropWhile p).length ≤ l.length
  | [] => le_refl _
  | c :: cs => by
    rw [List.dropWhile_cons]
    split
    · exact le_trans (length_dropWhile_le p cs) (Nat.le_succ _)
    · exact le_refl _

/-- Python `str.split()` on a character list, as a right fold: split on
runs of whitespace, producing no empty tokens. The accumulator carries the
token being built and the finished tokens. -/
def pySplitL (l : List Char) : List String :=
  let r := l.foldr (fun c acc =>
    if pyIsSpace c then
      (([] : List Char), if acc.1.isEmpty then acc.2 else (⟨acc.1⟩ : String) :: acc.2)
    else (c :: acc.1, acc.2)) (([] : List Char), ([] : List String))
  if r.1.isEmpty then r.2 else ⟨r.1⟩ :: r.2

/-- Python `str.split()` with no arguments. -/
def pySplit (s : String) : List String := pySplitL s.data

/-- The effect of `re.sub(r'[()]', '', s)`: delete every parenthesis character. -/
def stripParens (s : String) : String :=
  ⟨s.data.filter (fun c => !(c = '(' || c = ')'))⟩

/-- Python `str.strip()` restricted to the space character (after
`fullProcess` replacement the only whitespace left is a space). -/
def stripSpaces (l : List Char) : List Char :=
  ((l.dropWhile (· = ' ')).reverse.dropWhile (· = ' ')).reverse

/-- The fuzzywuzzy default processor `utils.full_process`: replace each
non-alphanumeric, non-underscore character by a space, lowercase, strip. -/
def fullProcess (s : String) : String :=
  ⟨stripSpaces (s.data.map (fun c => if c.isAlphanum || c = '_' then c.toLower else ' '))⟩

/-- Python `f'{d:02}'` for an integer: pad with a leading zero to width two
(a sign counts toward the width). -/
def pad2 (d : Int) : String :=
  if d < 0 then "-" ++ toString (-d)
  else if d < 10 then "0" ++ toString d
  else toString d

/-- Length of the longest common prefix of two character lists. -/
def cpl : List Char → List Char → Nat
  | a :: as, b :: bs => if a = b then cpl as bs + 1 else 0
  | _, _ => 0

/-- One step of the longest-matching-block search: replace the running best
`(i, j, k)` if the common prefix of `a.drop i` and `b.drop j` is strictly
longer than `k`. -/
def lcsStep (a b : List Char) (best : Nat × Nat × Nat) (i j : Nat) : Nat × Nat × Nat :=
  if best.2.2 < cpl (a.drop i) (b.drop j) then (i, j, cpl (a.drop i) (b.drop j)) else best

/-- difflib's `find_longest_match` over whole lists: the triple `(i, j, k)`
with `a.drop i` and `b.drop j` sharing a common prefix of maximal length
`k`, ties broken by the smallest `i`, then the smallest `j`. -/
def lcsBlock (a b : List Char) : Nat × Nat × Nat :=
  (List.range (a.length + 1)).foldl
    (fun best i => (List.range (b.length + 1)).foldl (fun bb j => lcsStep a b bb i j) best)
    (0, 0, 0)

theorem cpl_le_left : ∀ a b : List Char, cpl a b ≤ a.length
  | [], b => by cases b <;> simp [cpl]
  | _ :: _, [] => by simp [cpl]
  | a :: as, b :: bs => by
    by_cases h : a = b <;> simp [cpl, h, Nat.succ_le_succ_iff]
    exact cpl_le_left as bs

theorem cpl_le_right : ∀ a b : List Char, cpl a b ≤ b.length
  | [], b => by cases b <;> simp [cpl]
  | _ :: _, [] => by simp [cpl]
  | a :: as, b :: bs => by
    by_cases h : a = b <;> simp [cpl, h, Nat.succ_le_succ_iff]
    exact cpl_le_right as bs

/-- Soundness invariant of the block search: the reported length is at most
the true common-prefix length at the reported offsets. -/
def BlockSound (a b : List Char) (t : Nat × Nat × Nat) : Prop :=
  t.2.2 ≤ cpl (a.drop t.1) (b.drop t.2.1)

theorem lcsStep_sound {a b : List Char} {t : Nat × Nat × Nat} (h : BlockSound a b t)
    (i j : Nat) : BlockSound a b (lcsStep a b t i j) := by
  unfold lcsStep
  split
  · exact le_refl _
  · exact h

theorem foldl_inner_sound {a b : List Char} {t : Nat × Nat × Nat} (h : BlockSound a b t)
    (i : Nat) (js : List Nat) : BlockSound a b (js.foldl (fun bb j => lcsStep a b bb i j) t) := by
  induction js generalizing t with
  | nil => exact h
  | cons j js ih => exact ih (lcsStep_sound h i j)

theorem foldl_outer_sound {a b : List Char} {t : Nat × Nat × Nat} (h : BlockSound a b t)
    (is : List Nat) (js : List Nat) :
    BlockSound a b (is.foldl (fun best i => js.foldl (fun bb j => lcsStep a b bb i j) best) t) := by
  induction is generalizing t with
  | nil => exact h
  | cons i is ih => exact ih (foldl_inner_sound h i js)

theorem lcsBlock_sound (a b : List Char) : BlockSound a b (lcsBlock a b) := by
  unfold lcsBlock
  exact foldl_outer_sound (by simp [BlockSound]) _ _

theorem lcsStep_mono {a b : List Char} (t : Nat × Nat × Nat) (i j : Nat) :
    t.2.2 ≤ (lcsStep a b t i j).2.2 := by
  unfold lcsStep
  split
  · exact le_of_lt (by assumption)
  · exact le_refl _

theorem foldl_inner_mono {a b : List Char} (t : Nat × Nat × Nat) (i : Nat) (js : List Nat) :
    t.2.2 ≤ (js.foldl (fun bb j => lcsStep a b bb i j) t).2.2 := by
  induction js generalizing t with
  | nil => exact le_refl _
  | cons j js ih => exact le_trans (lcsStep_mono t i j) (ih _)

theorem foldl_outer_mono {a b : List Char} (t : Nat × Nat × Nat) (is js : List Nat) :
    t.2.2 ≤ (is.foldl (fun best i => js.foldl (fun bb j => lcsStep a b bb i j) best) t).2.2 := by
  induction is generalizing t with
  | nil => exact le_refl _
  | cons i is ih => exact le_trans (foldl_inner_mono t i js) (ih _)

theorem foldl_inner_ge {a b : List Char} (i : Nat) :
    ∀ (js : List Nat) (t : Nat × Nat × Nat), ∀ j ∈ js,
      cpl (a.drop i) (b.drop j) ≤ (js.foldl (fun bb j => lcsStep a b bb i j) t).2.2
  | [], _, j, hj => absurd hj (List.not_mem_nil j)
  | j0 :: js, t, j, hj => by
    rw [List.foldl_cons]
    rcases List.mem_cons.mp hj with h | h
    · subst h
      refine le_trans ?_ (foldl_inner_mono _ i js)
      show cpl (a.drop i) (b.drop j) ≤ (lcsStep a b t i j).2.2
      unfold lcsStep
      split
      · exact le_refl _
      · omega
    · exact foldl_inner_ge i js _ j h

theorem foldl_outer_ge {a b : List Char} (js : List Nat) :
    ∀ (is : List Nat) (t : Nat × Nat × Nat), ∀ i ∈ is, ∀ j ∈ js,
      cpl (a.drop i) (b.drop j) ≤
        (is.foldl (fun best i => js.foldl (fun bb j => lcsStep a b bb i j) best) t).2.2
  | [], _, i, hi, _, _ => absurd hi (List.not_mem_nil i)
  | i0 :: is, t, i, hi, j, hj => by
    rw [List.foldl_cons]
    rcases List.mem_cons.mp hi with h | h
    · subst h
      refine le_trans ?_ (foldl_outer_mono _ is js)
      show cpl (a.drop i) (b.drop j) ≤ (js.foldl (fun bb j => lcsStep a b bb i j) t).2.2
      exact foldl_inner_ge i js t j hj
    · exact foldl_outer_ge js is _ i h j hj

theorem cpl_nil_left (b : List Char) : cpl [] b = 0 := by cases b <;> simp [cpl]

theorem cpl_nil_right (a : List Char) : cpl a [] = 0 := by cases a <;> simp [cpl]

/-- Maximality of the block search: no pair of offsets has a longer common
prefix than the reported block length. -/
theorem lcsBlock_max (a b : List Char) (i j : Nat) :
    cpl (a.drop i) (b.drop j) ≤ (lcsBlock a b).2.2 := by
  by_cases hi : i ≤ a.length
  · by_cases hj : j ≤ b.length
    · unfold lcsBlock
      exact foldl_outer_ge _ _ _ i (List.mem_range.mpr (by omega)) j (List.mem_range.mpr (by omega))
    · rw [List.drop_eq_nil_of_le (show b.length ≤ j by omega), cpl_nil_right]
      exact Nat.zero_le _
  · rw [List.drop_eq_nil_of_le (show a.length ≤ i by omega), cpl_nil_left]
    exact Nat.zero_le _

theorem lcsBlock_k_le_left (a b : List Char) :
    (lcsBlock a b).2.2 ≤ a.length - (lcsBlock a b).1 := by
  refine le_trans (lcsBlock_sound a b) (le_trans (cpl_le_left _ _) ?_)
  simp

theorem lcsBlock_k_le_right (a b : List Char) :
    (lcsBlock a b).2.2 ≤ b.length - (lcsBlock a b).2.1 := by
  refine le_trans (lcsBlock_sound a b) (le_trans (cpl_le_right _ _) ?_)
  simp

/-- Fuelled recursion computing the total size of difflib's matching
blocks: take the longest matching block and recurse on the material to its
left and to its right. Structural recursion on the fuel keeps the
definition computable by the kernel; fuel `a.length` always suffices
because each recursive call strictly shortens `a`. -/
def matchTotalGo : Nat → List Char → List Char → Nat
  | 0, _, _ => 0
  | fuel + 1, a, b =>
    if (lcsBlock a b).2.2 = 0 then 0
    else
      matchTotalGo fuel (a.take (lcsBlock a b).1) (b.take (lcsBlock a b).2.1) +
        (lcsBlock a b).2.2 +
        matchTotalGo fuel (a.drop ((lcsBlock a b).1 + (lcsBlock a b).2.2))
          (b.drop ((lcsBlock a b).2.1 + (lcsBlock a b).2.2))

/-- Total size of difflib's matching blocks. -/
def matchTotal (a b : List Char) : Nat := matchTotalGo a.length a b

theorem matchTotalGo_nil (f : Nat) (b : List Char) : matchTotalGo f [] b = 0 := by
  cases f with
  | zero => rfl
  | succ f =>
    have hk : (lcsBlock [] b).2.2 = 0 :=
      Nat.le_zero.mp (le_trans (lcsBlock_k_le_left _ _) (by simp))
    simp [matchTotalGo, hk]

theorem matchTotalGo_congr : ∀ (n f1 f2 : Nat) (a b : List Char), a.length ≤ n →
    a.length ≤ f1 → a.length ≤ f2 → matchTotalGo f1 a b = matchTotalGo f2 a b := by
  intro n
  induction n with
  | zero =>
    intro f1 f2 a b hn _ _
    have ha : a = [] := List.length_eq_zero.mp (Nat.le_zero.mp hn)
    subst ha
    rw [matchTotalGo_nil, matchTotalGo_nil]
  | succ n ih =>
    intro f1 f2 a b hn h1 h2
    cases f1 with
    | zero =>
      have ha : a = [] := List.length_eq_zero.mp (Nat.le_zero.mp h1)
      subst ha
      rw [matchTotalGo_nil, matchTotalGo_nil]
    | succ f1 =>
      cases f2 with
      | zero =>
        have ha : a = [] := List.length_eq_zero.mp (Nat.le_zero.mp h2)
        subst ha
        rw [matchTotalGo_nil, matchTotalGo_nil]
      | succ f2 =>
        by_cases hk : (lcsBlock a b).2.2 = 0
        · simp [matchTotalGo, hk]
        · simp only [matchTotalGo, if_neg hk]
          have hkl := lcsBlock_k_le_left a b
          have e1 := ih f1 f2 (a.take (lcsBlock a b).1) (b.take (lcsBlock a b).2.1)
            (by simp only [List.length_take]; omega)
            (by simp only [List.length_take]; omega)
            (by simp only [List.length_take]; omega)
          have e2 := ih f1 f2 (a.drop ((lcsBlock a b).1 + (lcsBlock a b).2.2))
            (b.drop ((lcsBlock a b).2.1 + (lcsBlock a b).2.2))
            (by simp only [List.length_drop]; omega)
            (by simp only [List.length_drop]; omega)
            (by simp only [List.length_drop]; omega)
          rw [e1, e2]

theorem matchTotal_unfold (a b : List Char) :
    matchTotal a b =
      if (lcsBlock a b).2.2 = 0 then 0
      else
        matchTotal (a.take (lcsBlock a b).1) (b.take (lcsBlock a b).2.1) +
          (lcsBlock a b).2.2 +
          matchTotal (a.drop ((lcsBlock a b).1 + (lcsBlock a b).2.2))
            (b.drop ((lcsBlock a b).2.1 + (lcsBlock a b).2.2)) := by
  unfold matchTotal
  cases ha : a.length with
  | zero =>
    have ha0 : a = [] := List.length_eq_zero.mp ha
    subst ha0
    have hk : (lcsBlock [] b).2.2 = 0 :=
      Nat.le_zero.mp (le_trans (lcsBlock_k_le_left _ _) (by simp))
    simp [matchTotalGo_nil, hk]
  | succ n =>
    show matchTotalGo (n + 1) a b = _
    by_cases hk : (lcsBlock a b).2.2 = 0
    · simp [matchTotalGo, hk]
    · simp only [matchTotalGo, if_neg hk]
      have hkl := lcsBlock_k_le_left a b
      have e1 := matchTotalGo_congr (a.take (lcsBlock a b).1).length n
        (a.take (lcsBlock a b).1).length (a.take (lcsBlock a b).1) (b.take (lcsBlock a b).2.1)
        (le_refl _) (by simp only [List.length_take]; omega) (le_refl _)
      have e2 := matchTotalGo_congr (a.drop ((lcsBlock a b).1 + (lcsBlock a b).2.2)).length n
        (a.drop ((lcsBlock a b).1 + (lcsBlock a b).2.2)).length
        (a.drop ((lcsBlock a b).1 + (lcsBlock a b).2.2))
        (b.drop ((lcsBlock a b).2.1 + (lcsBlock a b).2.2))
        (le_refl _) (by simp only [List.length_drop]; omega) (le_refl _)
      rw [e1, e2]

/-- Python's `int(round(x))` applied to the exact rational `n / t`
(`t > 0`): rounding half-to-even. -/
def intr (n t : Nat) : Nat :=
  if t < 2 * (n % t) then n / t + 1
  else if 2 * (n % t) < t then n / t
  else if n / t % 2 = 0 then n / t else n / t + 1

/-- difflib `SequenceMatcher.ratio`, scaled to 0–100 and rounded as
`fuzz.ratio` does: `int(round(2 * M / T * 100))`, with `ratio = 1` when both
sequences are empty. -/
def seqRatio (a b : List Char) : Nat :=
  if a.length + b.length = 0 then 100
  else intr (200 * matchTotal a b) (a.length + b.length)

/-- fuzzywuzzy `fuzz.ratio` on two already-processed strings. -/
def fuzzRatio (s t : String) : Nat := seqRatio s.data t.data

/-- Python `max` over scored choices: keep the first choice attaining the
maximal score (later choices replace the best only on a strictly greater
score). -/
def bestOf (f : String → Nat) : String × Nat → List String → String × Nat
  | best, [] => best
  | best, c :: cs => bestOf f (if best.2 < f c then (c, f c) else best) cs

/-- fuzzywuzzy `process.extractOne(query, choices, scorer=fuzz.ratio)`:
score each choice by `fuzz.ratio` on the processed strings and return the
first choice with the maximal score; `none` on an empty choice list. -/
def extractOne (query : String) (choices : List String) : Option (String × Nat) :=
  match choices with
  | [] => none
  | c :: cs =>
    some (bestOf (fun x => fuzzRatio (fullProcess query) (fullProcess x))
      (c, fuzzRatio (fullProcess query) (fullProcess c)) cs)

deriving instance DecidableEq for Except

/-- One row of the merged reference table (`state_representatives_df`):
full state name, two-letter abbreviation, and total House seats. The real
table is scraped from Wikipedia at run time, so its contents are a
parameter of every function that uses it. -/
structure StateRecord where
  name : String
  abbr : String
  seats : Nat
deriving DecidableEq, Repr

/-- Python exception outcomes of the scripts. `valueError` carries the
exact message; `httpError` models `response.raise_for_status()` on a
non-success response; `typeError` models unpacking `None` returned by
`process.extractOne` on an empty choice list; `indexError` models `[-1]` or
`.values[0]` on an empty sequence; `keyError` models a missing dictionary
key. -/
inductive PyErr where
  | valueError (msg : String)
  | httpError (url : String)
  | typeError
  | indexError
  | keyError
deriving DecidableEq, Repr

/-- Observable side effects of a call: `print` notices and `requests.get`
requests, in program order. -/
inductive Eff where
  | notice (msg : String)
  | httpGet (url : String)
deriving DecidableEq, Repr

/-- One parsed CSV row as fetched from OpenSecrets, before cleanup: the
combined name-and-party column `FirstLastP` plus the remaining fields. -/
structure RawRow where
  firstLastP : String
  rest : List String
deriving DecidableEq, Repr

/-- One output row of the Notebook implementation: tagged with abbreviation
and zero-padded district, with the name/party column split in two. -/
structure OutRow where
  stateAbbr : String
  district : String
  firstLast : String
  party : String
  rest : List String
deriving DecidableEq, Repr

/-- One output row of the `Functions.py` / `data_pull.py` implementations:
tagged, but with the combined `FirstLastP` column kept as fetched. -/
structure FOutRow where
  stateAbbr : String
  district : String
  firstLastP : String
  rest : List String
deriving DecidableEq, Repr

/-- Message of `ValueError('District numbers must be greater than 0.')`. -/
def districtPositiveMsg : String := "District numbers must be greater than 0."

/-- Message of the too-short-input `ValueError` in the Notebook version. -/
def invalidStateMsg (st : String) : String :=
  "No state could be found under the name '" ++ st ++
    "'. Please use a full abbreviation or state name."

/-- Message of the too-short-input `ValueError` in `Functions.py` and
`data_pull.py` (no quotes around the input). -/
def fInvalidStateMsg (st : String) : String :=
  "No state could be found under the name " ++ st ++
    ". Please use a full abbreviation or state name."

/-- Message of the `ValueError` raised by `get_num_seats` on an unknown
abbreviation. -/
def noSeatMsg (st : String) : String :=
  "No data found for state '" ++ st ++ "'. Please use a valid state abbreviation."

/-- Message of the district-out-of-range `ValueError`: plural phrasing for
more than one district, singular otherwise. -/
def outOfRangeMsg (nm : String) (n : Nat) : String :=
  if 1 < n then "'" ++ nm ++ "' only has " ++ toString n ++ " districts."
  else "'" ++ nm ++ "' only has " ++ toString n ++ " district."

/-- Notice printed by the Notebook version on an inexact full-name match. -/
def noticeNameMsg (st cm : String) : String :=
  "No state by the name '" ++ st ++ "'. Assuming you meant '" ++ cm ++ "'."

/-- Notice printed by the Notebook version on an inexact abbreviation match. -/
def noticeAbbrMsg (st cm : String) : String :=
  "No state abbreviation by the name '" ++ st ++ "'. Assuming you meant '" ++ cm ++ "'."

/-- Notice printed by `Functions.py` / `data_pull.py` on an inexact
full-name match. -/
def fNoticeNameMsg (cm : String) : String :=
  "No state by this name. Assuming you meant " ++ cm ++ "."

/-- Notice printed by `Functions.py` / `data_pull.py` on an inexact
abbreviation match. -/
def fNoticeAbbrMsg (cm : String) : String :=
  "No state abbreviation by this name. Assuming you meant " ++ cm ++ "."

/-- Message of the `ValueError` raised by `get_all_data` when the best
fuzzy score of a supplied identifier is below 80. -/
def noCloseMsg (st : String) : String :=
  "No close match found for '" ++ st ++ "'. Please check your input."

/-- Message of pandas `pd.concat` on an empty list of frames. -/
def noConcatMsg : String := "No objects to concatenate"

/-- The dictionary `state_to_abr_dict` as a lookup (keys are unique in the
reference table, so first match equals Python's last-wins dict). -/
def lookupAbbrOfName (tbl : List StateRecord) (nm : String) : Option String :=
  (tbl.find? (fun r => r.name == nm)).map (·.abbr)

/-- The dictionary `abr_to_state_dict` as a lookup. -/
def lookupNameOfAbbr (tbl : List StateRecord) (ab : String) : Option String :=
  (tbl.find? (fun r => r.abbr == ab)).map (·.name)

/-- The dictionary `state_district_dict` as a lookup. -/
def lookupSeats (tbl : List StateRecord) (ab : String) : Option Nat :=
  (tbl.find? (fun r => r.abbr == ab)).map (·.seats)

/-- `get_num_seats` from `src/Notebook/retrievedata.py`: the seat count of
a state abbreviation, or `ValueError` when the key is absent. -/
def getNumSeats (tbl : List StateRecord) (ab : String) : Except PyErr Nat :=
  match lookupSeats tbl ab with
  | some n => .ok n
  | none => .error (.valueError (noSeatMsg ab))

/-- The fixed OpenSecrets base path of all three implementations. -/
def baseUrl : String := "https://www.opensecrets.org/races/summary.csv?cycle=2020&id="

/-- Per-row cleanup of the Notebook implementation: insert the resolved
abbreviation and the zero-padded district; the new `Party` column is the
last whitespace token of `FirstLastP` with parentheses removed
(`re.sub(r'[()]', '', x.split()[-1])`); `FirstLast` is the remaining tokens
joined by single spaces (`' '.join(x.split()[:-1])`). A whitespace-only
`FirstLastP` makes `x.split()[-1]` raise `IndexError`. -/
def splitRow (ab distStr : String) (r : RawRow) : Except PyErr OutRow :=
  match pySplit r.firstLastP with
  | [] => .error .indexError
  | t :: ts =>
    .ok { stateAbbr := ab, district := distStr,
          firstLast := String.intercalate " " ((t :: ts).dropLast),
          party := stripParens ((t :: ts).getLastD ""),
          rest := r.rest }

/-- Cleanup of a whole frame, row by row in order; the first failing row's
exception aborts the whole `.apply`. -/
def cleanRows (ab distStr : String) : List RawRow → Except PyErr (List OutRow)
  | [] => .ok []
  | r :: rs =>
    match splitRow ab distStr r with
    | .error e => .error e
    | .ok o =>
      match cleanRows ab distStr rs with
      | .error e => .error e
      | .ok os => .ok (o :: os)

/-- The fetch-and-clean tail of the Notebook implementation: issue the
request, fail on a non-success status, otherwise clean every row. -/
def fetchAndClean (net : String → Option (List RawRow)) (pre : List Eff)
    (url ab distStr : String) : List Eff × Except PyErr (List OutRow) :=
  match net url with
  | none => (pre ++ [Eff.httpGet url], .error (.httpError url))
  | some rows => (pre ++ [Eff.httpGet url], cleanRows ab distStr rows)

/-- Shallow embedding of `retrieve_2020_state_district_data` from
`src/Notebook/retrievedata.py` (lines 66–152): reject non-positive
districts; dispatch on input length (full name above two characters,
error below two, abbreviation at exactly two); fuzzy-match; check the
district bound against the matched state's seat count (with the
singular/plural message); build the URL from the abbreviation on an
inexact match but from the literal input on an exact match; fetch and
clean. The first component is the effect trace. -/
def retrieveN (tbl : List StateRecord) (net : String → Option (List RawRow))
    (state : String) (district : Int) : List Eff × Except PyErr (List OutRow) :=
  if district < 1 then ([], .error (.valueError districtPositiveMsg))
  else if 2 < state.length then
    match extractOne state (tbl.map (·.name)) with
    | none => ([], .error .typeError)
    | some (closest, score) =>
      match lookupAbbrOfName tbl closest with
      | none => ([], .error .keyError)
      | some ab =>
        match getNumSeats tbl ab with
        | .error e => ([], .error e)
        | .ok numSeats =>
          if (numSeats : Int) < district then
            ([], .error (.valueError (outOfRangeMsg closest numSeats)))
          else if score < 100 then
            fetchAndClean net [.notice (noticeNameMsg state closest)]
              (baseUrl ++ ab ++ pad2 district) ab (pad2 district)
          else
            fetchAndClean net [] (baseUrl ++ state ++ pad2 district) ab (pad2 district)
  else if state.length < 2 then
    ([], .error (.valueError (invalidStateMsg state)))
  else
    match extractOne state (tbl.map (·.abbr)) with
    | none => ([], .error .typeError)
    | some (closest, score) =>
      match getNumSeats tbl closest with
      | .error e => ([], .error e)
      | .ok numSeats =>
        if (numSeats : Int) < district then
          match lookupNameOfAbbr tbl closest with
          | none => ([], .error .keyError)
          | some nm => ([], .error (.valueError (outOfRangeMsg nm numSeats)))
        else if score < 100 then
          fetchAndClean net [.notice (noticeAbbrMsg state closest)]
            (baseUrl ++ closest ++ pad2 district) closest (pad2 district)
        else
          fetchAndClean net [] (baseUrl ++ state ++ pad2 district) closest (pad2 district)

/-- The State Resolver component of the Notebook implementation: the
length dispatch and fuzzy matching of `retrieve_2020_state_district_data`
without the interleaved district-bound checks. Returns the canonical
abbreviation the function uses to tag its output rows, the match score,
and the notices it prints. -/
def resolveState (tbl : List StateRecord) (state : String) :
    Except PyErr (String × Nat × List Eff) :=
  if 2 < state.length then
    match extractOne state (tbl.map (·.name)) with
    | none => .error .typeError
    | some (closest, score) =>
      match lookupAbbrOfName tbl closest with
      | none => .error .keyError
      | some ab =>
        .ok (ab, score, if score < 100 then [.notice (noticeNameMsg state closest)] else [])
  else if state.length < 2 then
    .error (.valueError (invalidStateMsg state))
  else
    match extractOne state (tbl.map (·.abbr)) with
    | none => .error .typeError
    | some (closest, score) =>
      .ok (closest, score, if score < 100 then [.notice (noticeAbbrMsg state closest)] else [])

/-- Lookup in the name-to-abbreviation dictionary of `Functions.py` /
`data_pull.py` (`state_abr_dict`, a list of name/abbreviation pairs). -/
def pairLookup (d : List (String × String)) (k : String) : Option String :=
  (d.find? (fun p => p.1 == k)).map (·.2)

/-- Fetch-and-tag tail of the `Functions.py` / `data_pull.py`
implementations: no district validation and no party extraction. -/
def fetchF (net : String → Option (List RawRow)) (pre : List Eff)
    (url ab distStr : String) : List Eff × Except PyErr (List FOutRow) :=
  match net url with
  | none => (pre ++ [Eff.httpGet url], .error (.httpError url))
  | some rows =>
    (pre ++ [Eff.httpGet url], .ok (rows.map (fun r => ⟨ab, distStr, r.firstLastP, r.rest⟩)))

/-- Shallow embedding of `retrieve_2020_state_district_data` from
`src/Functions.py` (lines 79–121): same length dispatch, fuzzy matching
and URL construction as the Notebook version, but no district-bound
validation and no party extraction. On an exact full-name match the
`state_abr_dict[closest_match]` lookup happens only after the fetch, when
tagging rows. -/
def retrieveF (dict : List (String × String)) (net : String → Option (List RawRow))
    (state : String) (district : Int) : List Eff × Except PyErr (List FOutRow) :=
  if 2 < state.length then
    match extractOne state (dict.map (·.1)) with
    | none => ([], .error .typeError)
    | some (closest, score) =>
      if score < 100 then
        match pairLookup dict closest with
        | none => ([], .error .keyError)
        | some ab =>
          fetchF net [.notice (fNoticeNameMsg closest)]
            (baseUrl ++ ab ++ pad2 district) ab (pad2 district)
      else
        match net (baseUrl ++ state ++ pad2 district) with
        | none =>
          ([Eff.httpGet (baseUrl ++ state ++ pad2 district)],
            .error (.httpError (baseUrl ++ state ++ pad2 district)))
        | some rows =>
          match pairLookup dict closest with
          | none => ([Eff.httpGet (baseUrl ++ state ++ pad2 district)], .error .keyError)
          | some ab =>
            ([Eff.httpGet (baseUrl ++ state ++ pad2 district)],
              .ok (rows.map (fun r => ⟨ab, pad2 district, r.firstLastP, r.rest⟩)))
  else if state.length < 2 then
    ([], .error (.valueError (fInvalidStateMsg state)))
  else
    match extractOne state (dict.map (·.2)) with
    | none => ([], .error .typeError)
    | some (closest, score) =>
      if score < 100 then
        fetchF net [.notice (fNoticeAbbrMsg closest)]
          (baseUrl ++ closest ++ pad2 district) closest (pad2 district)
      else
        fetchF net [] (baseUrl ++ state ++ pad2 district) closest (pad2 district)

/-- Shallow embedding of `retrieve_2020_state_district_data` from
`src/data_pull.py` (lines 13–86). Its body is the `Functions.py` logic
verbatim; the name-to-abbreviation dictionary it builds internally from
the scraped Wikipedia table is passed as the `dict` parameter, since that
table is external data. -/
def retrieveDP (dict : List (String × String)) (net : String → Option (List RawRow))
    (state : String) (district : Int) : List Eff × Except PyErr (List FOutRow) :=
  if 2 < state.length then
    match extractOne state (dict.map (·.1)) with
    | none => ([], .error .typeError)
    | some (closest, score) =>
      if score < 100 then
        match pairLookup dict closest with
        | none => ([], .error .keyError)
        | some ab =>
          fetchF net [.notice (fNoticeNameMsg closest)]
            (baseUrl ++ ab ++ pad2 district) ab (pad2 district)
      else
        match net (baseUrl ++ state ++ pad2 district) with
        | none =>
          ([Eff.httpGet (baseUrl ++ state ++ pad2 district)],
            .error (.httpError (baseUrl ++ state ++ pad2 district)))
        | some rows =>
          match pairLookup dict closest with
          | none => ([Eff.httpGet (baseUrl ++ state ++ pad2 district)], .error .keyError)
          | some ab =>
            ([Eff.httpGet (baseUrl ++ state ++ pad2 district)],
              .ok (rows.map (fun r => ⟨ab, pad2 district, r.firstLastP, r.rest⟩)))
  else if state.length < 2 then
    ([], .error (.valueError (fInvalidStateMsg state)))
  else
    match extractOne state (dict.map (·.2)) with
    | none => ([], .error .typeError)
    | some (closest, score) =>
      if score < 100 then
        fetchF net [.notice (fNoticeAbbrMsg closest)]
          (baseUrl ++ closest ++ pad2 district) closest (pad2 district)
      else
        fetchF net [] (baseUrl ++ state ++ pad2 district) closest (pad2 district)

/-- The `get_closest_match` helper inside `get_all_data` (Notebook): best
fuzzy match, `ValueError` when its score is below 80. -/
def getClosestMatch (input : String) (choices : List String) : Except PyErr String :=
  match extractOne input choices with
  | none => .error .typeError
  | some (m, score) =>
    if score < 80 then .error (.valueError (noCloseMsg input)) else .ok m

/-- Resolution of one supplied identifier in `get_all_data` (Notebook):
match against full names for inputs longer than two characters, otherwise
against abbreviations; then read the abbreviation off the
name/abbreviation table (`.values[0]` on an empty selection raises
`IndexError`). -/
def resolveForAll (abrTbl : List (String × String)) (s : String) : Except PyErr String :=
  if 2 < s.length then
    match getClosestMatch s (abrTbl.map (·.1)) with
    | .error e => .error e
    | .ok closest =>
      match abrTbl.find? (fun p => p.1 == closest) with
      | none => .error .indexError
      | some p => .ok p.2
  else
    getClosestMatch s (abrTbl.map (·.2))

/-- The inner district loop of `get_all_data`: fetch districts in
ascending order, aborting on the first error; collects the per-district
row lists. -/
def runDistricts (tbl : List StateRecord) (net : String → Option (List RawRow))
    (ab : String) : List Nat → List Eff × Except PyErr (List (List OutRow))
  | [] => ([], .ok [])
  | d :: ds =>
    match retrieveN tbl net ab (d : Int) with
    | (tr, .error e) => (tr, .error e)
    | (tr, .ok rows) =>
      match runDistricts tbl net ab ds with
      | (tr2, .error e) => (tr ++ tr2, .error e)
      | (tr2, .ok rest) => (tr ++ tr2, .ok (rows :: rest))

/-- One state's districts in `get_all_data`: `range(1, get_num_seats+1)`. -/
def runState (tbl : List StateRecord) (net : String → Option (List RawRow))
    (ab : String) : List Eff × Except PyErr (List (List OutRow)) :=
  match getNumSeats tbl ab with
  | .error e => ([], .error e)
  | .ok n => runDistricts tbl net ab (List.range' 1 n)

/-- One iteration of the supplied-states loop of `get_all_data`: resolve
the identifier at the 80 threshold, then fetch all its districts. -/
def runOneGiven (abrTbl : List (String × String)) (tbl : List StateRecord)
    (net : String → Option (List RawRow)) (s : String) :
    List Eff × Except PyErr (List (List OutRow)) :=
  match resolveForAll abrTbl s with
  | .error e => ([], .error e)
  | .ok ab => runState tbl net ab

/-- The supplied-states loop of `get_all_data`. -/
def runStatesGiven (abrTbl : List (String × String)) (tbl : List StateRecord)
    (net : String → Option (List RawRow)) :
    List String → List Eff × Except PyErr (List (List OutRow))
  | [] => ([], .ok [])
  | s :: ss =>
    match runOneGiven abrTbl tbl net s with
    | (tr, .error e) => (tr, .error e)
    | (tr, .ok dfs) =>
      match runStatesGiven abrTbl tbl net ss with
      | (tr2, .error e) => (tr ++ tr2, .error e)
      | (tr2, .ok rest) => (tr ++ tr2, .ok (dfs ++ rest))

/-- The all-states loop of `get_all_data`: iterate `state_district_dict`
in table order. -/
def runStatesAll (tbl : List StateRecord) (net : String → Option (List RawRow)) :
    List StateRecord → List Eff × Except PyErr (List (List OutRow))
  | [] => ([], .ok [])
  | r :: rs =>
    match runState tbl net r.abbr with
    | (tr, .error e) => (tr, .error e)
    | (tr, .ok dfs) =>
      match runStatesAll tbl net rs with
      | (tr2, .error e) => (tr ++ tr2, .error e)
      | (tr2, .ok rest) => (tr ++ tr2, .ok (dfs ++ rest))

/-- Shallow embedding of `get_all_data` from `src/Notebook/retrievedata.py`
(lines 155–211): with a truthy state list, resolve each identifier at the
80 threshold and fetch its districts; otherwise (including an empty list,
which is falsy in Python) iterate every state of the reference table.
Concatenate all per-district frames; pandas raises on an empty frame
list. -/
def getAllData (abrTbl : List (String × String)) (tbl : List StateRecord)
    (net : String → Option (List RawRow)) (states : Option (List String)) :
    List Eff × Except PyErr (List OutRow) :=
  match
    match states with
    | some (s :: ss) => runStatesGiven abrTbl tbl net (s :: ss)
    | _ => runStatesAll tbl net tbl
  with
  | (tr, .error e) => (tr, .error e)
  | (tr, .ok dfs) =>
    if dfs.isEmpty then (tr, .error (.valueError noConcatMsg))
    else (tr, .ok dfs.flatten)

/-- Specification-side Fetcher, written from the spec's words (section
4.4): the request target is the fixed base path, the abbreviation, and the
zero-padded district number; every returned row is tagged and its combined
name/party field split. Used to compare the implementations against the
spec. -/
def specFetch (net : String → Option (List RawRow)) (ab : String) (d : Nat) :
    Except PyErr (List OutRow) :=
  match net (baseUrl ++ ab ++ pad2 (d : Int)) with
  | none => .error (.httpError (baseUrl ++ ab ++ pad2 (d : Int)))
  | some rows => cleanRows ab (pad2 (d : Int)) rows

/-- Row list of a successful specification-side fetch. -/
def specDistrictRows (net : String → Option (List RawRow)) (ab : String) (d : Nat) :
    List OutRow :=
  ((specFetch net ab d).toOption).getD []

/-- Specification-side ResultSet, written from the spec's words (section
4.5): the concatenation, state by state in table order and district
1..seat_count ascending within each state, of the per-district row lists. -/
def specResultSet (tbl : List StateRecord) (net : String → Option (List RawRow)) :
    List OutRow :=
  (tbl.map (fun r => ((List.range' 1 r.seats).map (specDistrictRows net r.abbr)).flatten)).flatten

/-- Sample reference table for concrete witnesses (four rows of the real
2020 apportionment; the real table is external data fetched at run time). -/
def sampleTable : List StateRecord :=
  [⟨"Tennessee", "TN", 7⟩, ⟨"Massachusetts", "MA", 6⟩,
   ⟨"California", "CA", 53⟩, ⟨"Wyoming", "WY", 1⟩]

/-- The name/abbreviation pairs of the sample table. -/
def sampleAbrTable : List (String × String) :=
  [("Tennessee", "TN"), ("Massachusetts", "MA"), ("California", "CA"), ("Wyoming", "WY")]

/-- Sample CSV body served for every district of the sample states. -/
def sampleRows : List RawRow :=
  [⟨"Jane Doe (D)", ["1000"]⟩, ⟨"John Roe (R)", ["500"]⟩]

/-- Sample network: serves `sampleRows` at the well-formed district URLs of
the sample states (abbreviation plus in-range zero-padded district),
nothing anywhere else. -/
def sampleNet (url : String) : Option (List RawRow) :=
  if sampleTable.any (fun r =>
      (List.range' 1 r.seats).any (fun d => url == baseUrl ++ r.abbr ++ pad2 (d : Int)))
  then some sampleRows
  else none

/-- Tiny reference table for aggregate witnesses (seat counts shrunk so
that whole-run evaluation stays small; the tables are external data, so
any well-formed contents are admissible). -/
def tinyTable : List StateRecord := [⟨"Tennessee", "TN", 2⟩, ⟨"Wyoming", "WY", 1⟩]

/-- The name/abbreviation pairs of the tiny table. -/
def tinyAbrTable : List (String × String) := [("Tennessee", "TN"), ("Wyoming", "WY")]

/-- Tiny network serving `sampleRows` at the district URLs of `tinyTable`. -/
def tinyNet (url : String) : Option (List RawRow) :=
  if tinyTable.any (fun r =>
      (List.range' 1 r.seats).any (fun d => url == baseUrl ++ r.abbr ++ pad2 (d : Int)))
  then some sampleRows
  else none

/-- A network that serves `sampleRows` at every URL. -/
def allNet (_ : String) : Option (List RawRow) := some sampleRows

/-- The name/abbreviation dictionary extracted from a reference table, in
table order (what `create_state_abr_dict` produces). -/
def pairsOf (tbl : List StateRecord) : List (String × String) :=
  tbl.map (fun r => (r.name, r.abbr))

/-- The best fuzzy match the Notebook retrieval consults for a given input:
full names for inputs longer than two characters, abbreviations otherwise
(the length dispatch of the source). -/
def bestMatch (tbl : List StateRecord) (state : String) : Option (String × Nat) :=
  if 2 < state.length then extractOne state (tbl.map (·.name))
  else extractOne state (tbl.map (·.abbr))

/-- Well-formedness of a reference table, from the spec's data-model
invariants (section 3): unique names and abbreviations (also after fuzzy
preprocessing), two-letter abbreviations, names longer than two
characters, processed entries shorter than 100 characters (true of all
real state names), and at least one seat per state. -/
def WFTable (tbl : List StateRecord) : Prop :=
  (tbl.map (·.name)).Nodup ∧
  (tbl.map (·.abbr)).Nodup ∧
  (tbl.map (fun r => fullProcess r.name)).Nodup ∧
  (tbl.map (fun r => fullProcess r.abbr)).Nodup ∧
  (∀ r ∈ tbl, r.abbr.length = 2) ∧
  (∀ r ∈ tbl, 2 < r.name.length) ∧
  (∀ r ∈ tbl, (fullProcess r.name).length ≤ 99 ∧ (fullProcess r.abbr).length ≤ 99) ∧
  (∀ r ∈ tbl, 1 ≤ r.seats)

instance (tbl : List StateRecord) : Decidable (WFTable tbl) := by
  unfold WFTable
  infer_instance

theorem string_ext {s t : String} (h : s.data = t.data) : s = t := by
  cases s
  cases t
  exact congrArg String.mk h

theorem cpl_self : ∀ a : List Char, cpl a a = a.length
  | [] => rfl
  | c :: cs => by simp [cpl, cpl_self cs]

theorem cpl_take : ∀ (a b : List Char) (k : Nat), k ≤ cpl a b → a.take k = b.take k := by
  intro a
  induction a with
  | nil =>
    intro b k h
    rw [cpl_nil_left] at h
    simp [Nat.le_zero.mp h]
  | cons c cs ih =>
    intro b k h
    cases b with
    | nil =>
      rw [cpl_nil_right] at h
      simp [Nat.le_zero.mp h]
    | cons d ds =>
      by_cases hcd : c = d
      · subst hcd
        cases k with
        | zero => simp
        | succ k =>
          have h' : k ≤ cpl cs ds := by
            have : cpl (c :: cs) (c :: ds) = cpl cs ds + 1 := by simp [cpl]
            omega
          simp [List.take_succ_cons, ih ds k h']
      · have h0 : cpl (c :: cs) (d :: ds) = 0 := by simp [cpl, hcd]
        rw [h0] at h
        simp [Nat.le_zero.mp h]

theorem matchTotal_nil_left (b : List Char) : matchTotal [] b = 0 := rfl

theorem matchTotal_le (n : Nat) : ∀ a b : List Char, a.length ≤ n →
    matchTotal a b ≤ a.length ∧ matchTotal a b ≤ b.length := by
  induction n with
  | zero =>
    intro a b ha
    have ha0 : a = [] := List.length_eq_zero.mp (Nat.le_zero.mp ha)
    subst ha0
    simp [matchTotal_nil_left]
  | succ n ih =>
    intro a b ha
    rw [matchTotal_unfold]
    split
    · simp
    · rename_i hk0
      have hkl := lcsBlock_k_le_left a b
      have hkr := lcsBlock_k_le_right a b
      have h1 := ih (a.take (lcsBlock a b).1) (b.take (lcsBlock a b).2.1)
        (by simp only [List.length_take]; omega)
      have h2 := ih (a.drop ((lcsBlock a b).1 + (lcsBlock a b).2.2))
        (b.drop ((lcsBlock a b).2.1 + (lcsBlock a b).2.2))
        (by simp only [List.length_drop]; omega)
      simp only [List.length_take, List.length_drop] at h1 h2
      constructor <;> omega

theorem matchTotal_self : ∀ a : List Char, matchTotal a a = a.length := by
  intro a
  rw [matchTotal_unfold]
  split
  · rename_i hk
    have hmax := lcsBlock_max a a 0 0
    simp only [List.drop_zero, cpl_self, hk] at hmax
    omega
  · rename_i hk
    have hmax := lcsBlock_max a a 0 0
    simp only [List.drop_zero, cpl_self] at hmax
    have hkl := lcsBlock_k_le_left a a
    have hkr := lcsBlock_k_le_right a a
    have hi : (lcsBlock a a).1 = 0 := by omega
    have hj : (lcsBlock a a).2.1 = 0 := by omega
    have hk' : (lcsBlock a a).2.2 = a.length := by omega
    rw [hi, hj, hk']
    simp [matchTotal_nil_left]

theorem matchTotal_full (n : Nat) : ∀ a b : List Char, a.length ≤ n →
    matchTotal a b = a.length → matchTotal a b = b.length → a = b := by
  induction n with
  | zero =>
    intro a b ha h1 h2
    have ha0 : a = [] := List.length_eq_zero.mp (Nat.le_zero.mp ha)
    subst ha0
    rw [matchTotal_nil_left] at h2
    exact (List.length_eq_zero.mp h2.symm).symm
  | succ n ih =>
    intro a b ha h1 h2
    rw [matchTotal_unfold] at h1 h2
    by_cases hk0 : (lcsBlock a b).2.2 = 0
    · rw [if_pos hk0] at h1 h2
      rw [List.length_eq_zero.mp h1.symm, List.length_eq_zero.mp h2.symm]
    · rw [if_neg hk0] at h1 h2
      have hkl := lcsBlock_k_le_left a b
      have hkr := lcsBlock_k_le_right a b
      have hb1 := matchTotal_le n (a.take (lcsBlock a b).1) (b.take (lcsBlock a b).2.1)
        (by simp only [List.length_take]; omega)
      have hb2 := matchTotal_le n (a.drop ((lcsBlock a b).1 + (lcsBlock a b).2.2))
        (b.drop ((lcsBlock a b).2.1 + (lcsBlock a b).2.2))
        (by simp only [List.length_drop]; omega)
      simp only [List.length_take, List.length_drop] at hb1 hb2
      have hTa : matchTotal (a.take (lcsBlock a b).1) (b.take (lcsBlock a b).2.1) =
          (a.take (lcsBlock a b).1).length := by
        simp only [List.length_take]; omega
      have hTb : matchTotal (a.take (lcsBlock a b).1) (b.take (lcsBlock a b).2.1) =
          (b.take (lcsBlock a b).2.1).length := by
        simp only [List.length_take]; omega
      have hDa : matchTotal (a.drop ((lcsBlock a b).1 + (lcsBlock a b).2.2))
          (b.drop ((lcsBlock a b).2.1 + (lcsBlock a b).2.2)) =
          (a.drop ((lcsBlock a b).1 + (lcsBlock a b).2.2)).length := by
        simp only [List.length_drop]; omega
      have hDb : matchTotal (a.drop ((lcsBlock a b).1 + (lcsBlock a b).2.2))
          (b.drop ((lcsBlock a b).2.1 + (lcsBlock a b).2.2)) =
          (b.drop ((lcsBlock a b).2.1 + (lcsBlock a b).2.2)).length := by
        simp only [List.length_drop]; omega
      have hEq1 := ih _ _ (by simp only [List.length_take]; omega) hTa hTb
      have hEq2 := ih _ _ (by simp only [List.length_drop]; omega) hDa hDb
      have hij : (lcsBlock a b).1 = (lcsBlock a b).2.1 := by
        simp only [List.length_take] at hTa hTb
        omega
      have hMid : (a.drop (lcsBlock a b).1).take (lcsBlock a b).2.2 =
          (b.drop (lcsBlock a b).2.1).take (lcsBlock a b).2.2 :=
        cpl_take _ _ _ (lcsBlock_sound a b)
      have hA : a = a.take (lcsBlock a b).1 ++
          ((a.drop (lcsBlock a b).1).take (lcsBlock a b).2.2 ++
            a.drop ((lcsBlock a b).1 + (lcsBlock a b).2.2)) := by
        conv_lhs => rw [← List.take_append_drop (lcsBlock a b).1 a]
        congr 1
        conv_lhs => rw [← List.take_append_drop (lcsBlock a b).2.2 (a.drop (lcsBlock a b).1)]
        rw [List.drop_drop]
      have hB : b = b.take (lcsBlock a b).2.1 ++
          ((b.drop (lcsBlock a b).2.1).take (lcsBlock a b).2.2 ++
            b.drop ((lcsBlock a b).2.1 + (lcsBlock a b).2.2)) := by
        conv_lhs => rw [← List.take_append_drop (lcsBlock a b).2.1 b]
        congr 1
        conv_lhs => rw [← List.take_append_drop (lcsBlock a b).2.2 (b.drop (lcsBlock a b).2.1)]
        rw [List.drop_drop]
      calc a = a.take (lcsBlock a b).1 ++
            ((a.drop (lcsBlock a b).1).take (lcsBlock a b).2.2 ++
              a.drop ((lcsBlock a b).1 + (lcsBlock a b).2.2)) := hA
        _ = b.take (lcsBlock a b).2.1 ++
            ((b.drop (lcsBlock a b).2.1).take (lcsBlock a b).2.2 ++
              b.drop ((lcsBlock a b).2.1 + (lcsBlock a b).2.2)) := by
            rw [hEq1, hMid, hEq2]
        _ = b := hB.symm

theorem intr_le_99 (n t : Nat) (ht : 0 < t) (hle : t ≤ 199) (h : n + 100 ≤ 100 * t) :
    intr n t ≤ 99 := by
  have hlt100 : n / t < 100 := (Nat.div_lt_iff_lt_mul ht).mpr (by omega)
  unfold intr
  by_cases hq : n / t = 99
  · have hmod := Nat.div_add_mod n t
    rw [hq] at hmod
    split
    · omega
    · split
      · omega
      · split <;> omega
  · split
    · omega
    · split
      · omega
      · split <;> omega

theorem seqRatio_self (a : List Char) : seqRatio a a = 100 := by
  unfold seqRatio
  by_cases h : a.length + a.length = 0
  · rw [if_pos h]
  · rw [if_neg h, matchTotal_self]
    have ht : 0 < a.length + a.length := Nat.pos_of_ne_zero h
    have hn : 200 * a.length = 100 * (a.length + a.length) := by ring
    rw [hn]
    unfold intr
    have hmod : 100 * (a.length + a.length) % (a.length + a.length) = 0 :=
      Nat.mul_mod_left 100 _
    have hdiv : 100 * (a.length + a.length) / (a.length + a.length) = 100 :=
      Nat.mul_div_left 100 ht
    rw [hmod, hdiv]
    rw [if_neg (by omega), if_pos (by omega)]

theorem seqRatio_lt_100 {a b : List Char} (hne : a ≠ b)
    (hlen : a.length + b.length ≤ 199) : seqRatio a b < 100 := by
  unfold seqRatio
  by_cases h0 : a.length + b.length = 0
  · exact absurd (by
      rw [List.length_eq_zero.mp (show a.length = 0 by omega),
        List.length_eq_zero.mp (show b.length = 0 by omega)]) hne
  · rw [if_neg h0]
    have hM := matchTotal_le a.length a b (le_refl _)
    have h2M : 2 * matchTotal a b < a.length + b.length := by
      by_contra hcon
      push_neg at hcon
      have hMa : matchTotal a b = a.length := by omega
      have hMb : matchTotal a b = b.length := by omega
      exact hne (matchTotal_full a.length a b (le_refl _) hMa hMb)
    have h99 := intr_le_99 (200 * matchTotal a b) (a.length + b.length)
      (by omega) hlen (by omega)
    omega

theorem fuzzRatio_self (s : String) : fuzzRatio s s = 100 := seqRatio_self s.data

theorem fuzzRatio_lt_100 {s t : String} (hne : s ≠ t)
    (hlen : s.data.length + t.data.length ≤ 199) : fuzzRatio s t < 100 :=
  seqRatio_lt_100 (fun h => hne (string_ext h)) hlen

theorem bestOf_fix (f : String → Nat) : ∀ (l : List String) (best : String × Nat),
    best.2 = f best.1 →
    (bestOf f best l).2 = f (bestOf f best l).1 ∧
      ((bestOf f best l).1 = best.1 ∨ (bestOf f best l).1 ∈ l)
  | [], _, h => ⟨h, Or.inl rfl⟩
  | c :: cs, best, h => by
    by_cases hc : best.2 < f c
    · simp only [bestOf, if_pos hc]
      rcases bestOf_fix f cs (c, f c) rfl with ⟨h1, h2⟩
      refine ⟨h1, Or.inr ?_⟩
      rcases h2 with h2 | h2
      · rw [h2]; exact List.mem_cons_self c cs
      · exact List.mem_cons_of_mem c h2
    · simp only [bestOf, if_neg hc]
      rcases bestOf_fix f cs best h with ⟨h1, h2⟩
      refine ⟨h1, ?_⟩
      rcases h2 with h2 | h2
      · exact Or.inl h2
      · exact Or.inr (List.mem_cons_of_mem c h2)

theorem bestOf_ge_init (f : String → Nat) : ∀ (l : List String) (best : String × Nat),
    best.2 ≤ (bestOf f best l).2
  | [], _ => le_refl _
  | c :: cs, best => by
    by_cases hc : best.2 < f c
    · simp only [bestOf, if_pos hc]
      exact le_trans (le_of_lt hc) (bestOf_ge_init f cs (c, f c))
    · simp only [bestOf, if_neg hc]
      exact bestOf_ge_init f cs best

theorem bestOf_ge_mem (f : String → Nat) : ∀ (l : List String) (best : String × Nat)
    (c : String), c ∈ l → f c ≤ (bestOf f best l).2
  | [], _, c, hc => absurd hc (List.not_mem_nil c)
  | d :: ds, best, c, hc => by
    rcases List.mem_cons.mp hc with h | h
    · subst h
      by_cases hcb : best.2 < f c
      · simp only [bestOf, if_pos hcb]
        exact bestOf_ge_init f ds (c, f c)
      · simp only [bestOf, if_neg hcb]
        exact le_trans (Nat.le_of_not_lt hcb) (bestOf_ge_init f ds best)
    · by_cases hcb : best.2 < f d
      · simp only [bestOf, if_pos hcb]
        exact bestOf_ge_mem f ds _ c h
      · simp only [bestOf, if_neg hcb]
        exact bestOf_ge_mem f ds _ c h

/-- Core of the unique-maximum argument for the Python `max` fold: when one
choice scores 100 and every other choice scores strictly less, the fold
returns that choice with score 100 regardless of its position. -/
theorem bestOf_core_unique (f : String → Nat) (c0 : String) (cs : List String) (c : String)
    (hc : c ∈ c0 :: cs) (h100 : f c = 100) (hlt : ∀ d ∈ c0 :: cs, d ≠ c → f d < 100) :
    bestOf f (c0, f c0) cs = (c, 100) := by
  rcases bestOf_fix f cs (c0, f c0) rfl with ⟨h1, h2⟩
  have hmem : (bestOf f (c0, f c0) cs).1 ∈ c0 :: cs := by
    rcases h2 with h | h
    · rw [h]; exact List.mem_cons_self c0 cs
    · exact List.mem_cons_of_mem c0 h
  have hge : 100 ≤ (bestOf f (c0, f c0) cs).2 := by
    rcases List.mem_cons.mp hc with h | h
    · have h0 := bestOf_ge_init f cs (c0, f c0)
      have h0' : f c0 ≤ (bestOf f (c0, f c0) cs).2 := h0
      have hcc : f c0 = 100 := by rw [← h]; exact h100
      omega
    · have h0 := bestOf_ge_mem f cs (c0, f c0) c h
      omega
  have hr1 : (bestOf f (c0, f c0) cs).1 = c := by
    by_contra hne
    have := hlt _ hmem hne
    have heq : (bestOf f (c0, f c0) cs).2 = f (bestOf f (c0, f c0) cs).1 := h1
    omega
  have hr2 : (bestOf f (c0, f c0) cs).2 = 100 := by
    have heq : (bestOf f (c0, f c0) cs).2 = f (bestOf f (c0, f c0) cs).1 := h1
    rw [heq, hr1, h100]
  exact Prod.ext hr1 hr2

/-- The result of the fold is a member of the choices, carrying its own
score. -/
theorem bestOf_result (f : String → Nat) (c0 : String) (cs : List String) :
    (bestOf f (c0, f c0) cs).1 ∈ c0 :: cs ∧
      (bestOf f (c0, f c0) cs).2 = f (bestOf f (c0, f c0) cs).1 := by
  rcases bestOf_fix f cs (c0, f c0) rfl with ⟨h1, h2⟩
  refine ⟨?_, h1⟩
  rcases h2 with h | h
  · rw [h]; exact List.mem_cons_self c0 cs
  · exact List.mem_cons_of_mem c0 h

/-- When one choice scores 100 and every other choice scores strictly
less, `extractOne` returns that choice with score 100 regardless of its
position. -/
theorem extractOne_unique (q : String) (choices : List String) (c : String)
    (hc : c ∈ choices) (h100 : fuzzRatio (fullProcess q) (fullProcess c) = 100)
    (hlt : ∀ d ∈ choices, d ≠ c → fuzzRatio (fullProcess q) (fullProcess d) < 100) :
    extractOne q choices = some (c, 100) := by
  cases choices with
  | nil => cases hc
  | cons c0 cs =>
    exact congrArg some
      (bestOf_core_unique (fun x => fuzzRatio (fullProcess q) (fullProcess x)) c0 cs c hc
        h100 hlt)

/-- The result of `extractOne` is a member of the choices, carrying its
own score. -/
theorem extractOne_mem_score (q : String) (choices : List String) (m : String) (sc : Nat)
    (h : extractOne q choices = some (m, sc)) :
    m ∈ choices ∧ sc = fuzzRatio (fullProcess q) (fullProcess m) := by
  cases choices with
  | nil => simp [extractOne] at h
  | cons c0 cs =>
    have hm : bestOf (fun x => fuzzRatio (fullProcess q) (fullProcess x))
        (c0, fuzzRatio (fullProcess q) (fullProcess c0)) cs = (m, sc) :=
      Option.some.inj h
    obtain ⟨hmem, hsc⟩ :=
      bestOf_result (fun x => fuzzRatio (fullProcess q) (fullProcess x)) c0 cs
    rw [hm] at hmem hsc
    exact ⟨hmem, hsc⟩

/-- The score of `extractOne` dominates the score of every choice. -/
theorem extractOne_score_ge (q : String) (choices : List String) (m : String) (sc : Nat)
    (h : extractOne q choices = some (m, sc)) :
    ∀ d ∈ choices, fuzzRatio (fullProcess q) (fullProcess d) ≤ sc := by
  cases choices with
  | nil => simp [extractOne] at h
  | cons c0 cs =>
    have hm : bestOf (fun x => fuzzRatio (fullProcess q) (fullProcess x))
        (c0, fuzzRatio (fullProcess q) (fullProcess c0)) cs = (m, sc) :=
      Option.some.inj h
    intro d hd
    rcases List.mem_cons.mp hd with h2 | h2
    · subst h2
      have h0 := bestOf_ge_init (fun x => fuzzRatio (fullProcess q) (fullProcess x)) cs
        (d, fuzzRatio (fullProcess q) (fullProcess d))
      rw [hm] at h0
      exact h0
    · have h0 := bestOf_ge_mem (fun x => fuzzRatio (fullProcess q) (fullProcess x)) cs
        (c0, fuzzRatio (fullProcess q) (fullProcess c0)) d h2
      rw [hm] at h0
      exact h0


theorem find?_key_eq {α : Type} (key : α → String) :
    ∀ (l : List α) (r : α), (l.map key).Nodup → r ∈ l →
      l.find? (fun x => key x == key r) = some r
  | [], r, _, hr => absurd hr (List.not_mem_nil r)
  | x :: xs, r, hnd, hr => by
    simp only [List.map_cons, List.nodup_cons] at hnd
    rcases List.mem_cons.mp hr with h | h
    · subst h
      rw [List.find?_cons_of_pos _ (by simp)]
    · have hne : key x ≠ key r := by
        intro he
        exact hnd.1 (he ▸ List.mem_map_of_mem key h)
      rw [List.find?_cons_of_neg _ (by simp [hne])]
      exact find?_key_eq key xs r hnd.2 h

theorem lookupAbbrOfName_eq (tbl : List StateRecord)
    (hnd : (tbl.map (·.name)).Nodup) (r : StateRecord) (hr : r ∈ tbl) :
    lookupAbbrOfName tbl r.name = some r.abbr := by
  unfold lookupAbbrOfName
  rw [show tbl.find? (fun x => x.name == r.name) = some r from
    find?_key_eq (fun x => x.name) tbl r hnd hr]
  rfl

theorem lookupNameOfAbbr_eq (tbl : List StateRecord)
    (hnd : (tbl.map (·.abbr)).Nodup) (r : StateRecord) (hr : r ∈ tbl) :
    lookupNameOfAbbr tbl r.abbr = some r.name := by
  unfold lookupNameOfAbbr
  rw [show tbl.find? (fun x => x.abbr == r.abbr) = some r from
    find?_key_eq (fun x => x.abbr) tbl r hnd hr]
  rfl

theorem getNumSeats_eq (tbl : List StateRecord)
    (hnd : (tbl.map (·.abbr)).Nodup) (r : StateRecord) (hr : r ∈ tbl) :
    getNumSeats tbl r.abbr = .ok r.seats := by
  unfold getNumSeats lookupSeats
  rw [show tbl.find? (fun x => x.abbr == r.abbr) = some r from
    find?_key_eq (fun x => x.abbr) tbl r hnd hr]
  rfl

/-- Feeding `extractOne` a key that occurs verbatim in the choice list
returns that key with score 100, provided the processed keys are pairwise
distinct and short. -/
theorem extractOne_exact_key (key : StateRecord → String) (tbl : List StateRecord)
    (hnd : (tbl.map (fun x => fullProcess (key x))).Nodup)
    (hlen : ∀ x ∈ tbl, (fullProcess (key x)).length ≤ 99)
    (r : StateRecord) (hr : r ∈ tbl) :
    extractOne (key r) (tbl.map key) = some (key r, 100) := by
  apply extractOne_unique
  · exact List.mem_map_of_mem key hr
  · exact fuzzRatio_self _
  · intro d hd hne
    rcases List.mem_map.mp hd with ⟨x, hx, hxd⟩
    subst hxd
    have hfp : fullProcess (key x) ≠ fullProcess (key r) := by
      intro he
      exact hne (congrArg key (List.inj_on_of_nodup_map hnd hx hr he))
    exact fuzzRatio_lt_100 (fun h => hfp h.symm)
      (by
        have h1 : (fullProcess (key r)).length ≤ 99 := hlen r hr
        have h2 : (fullProcess (key x)).length ≤ 99 := hlen x hx
        show (fullProcess (key r)).length + (fullProcess (key x)).length ≤ 199
        omega)

/-- On an exact abbreviation input the resolver returns that abbreviation
with confidence 100 and prints nothing. -/
theorem resolveState_abbr_exact (tbl : List StateRecord) (hwf : WFTable tbl)
    (r : StateRecord) (hr : r ∈ tbl) :
    resolveState tbl r.abbr = .ok (r.abbr, 100, []) := by
  obtain ⟨hn1, hn2, hn3, hn4, hab2, hnm3, hlen, hseat⟩ := hwf
  have h2 : r.abbr.length = 2 := hab2 r hr
  have hextract := extractOne_exact_key (fun x => x.abbr) tbl hn4
    (fun x hx => (hlen x hx).2) r hr
  simp [resolveState, h2, hextract]

/-- On an exact full-name input the resolver returns the record's
abbreviation with confidence 100 and prints nothing. -/
theorem resolveState_name_exact (tbl : List StateRecord) (hwf : WFTable tbl)
    (r : StateRecord) (hr : r ∈ tbl) :
    resolveState tbl r.name = .ok (r.abbr, 100, []) := by
  obtain ⟨hn1, hn2, hn3, hn4, hab2, hnm3, hlen, hseat⟩ := hwf
  have h3 : 2 < r.name.length := hnm3 r hr
  have hextract := extractOne_exact_key (fun x => x.name) tbl hn3
    (fun x hx => (hlen x hx).1) r hr
  have hlook := lookupAbbrOfName_eq tbl hn1 r hr
  simp [resolveState, h3, hextract, hlook]

theorem cleanRows_error_isIndex : ∀ (rows : List RawRow) (ab ds : String) (e : PyErr),
    cleanRows ab ds rows = .error e → e = .indexError
  | [], _, _, _, h => by simp [cleanRows] at h
  | r :: rs, ab, ds, e, h => by
    unfold cleanRows at h
    unfold splitRow at h
    rcases hsp : pySplit r.firstLastP with _ | ⟨t, ts⟩
    · rw [hsp] at h
      exact (Except.error.inj h).symm
    · rw [hsp] at h
      rcases hrec : cleanRows ab ds rs with e2 | os
      · rw [hrec] at h
        have := cleanRows_error_isIndex rs ab ds e2 hrec
        subst this
        exact (Except.error.inj h).symm
      · rw [hrec] at h
        cases h

/-- The specification-side fetch never fails with a `ValueError`: its only
failure modes are the HTTP status and the row-splitting `IndexError`. -/
theorem specFetch_no_valueError (net : String → Option (List RawRow)) (ab : String)
    (d : Nat) (msg : String) : specFetch net ab d ≠ .error (.valueError msg) := by
  unfold specFetch
  cases hnet : net (baseUrl ++ ab ++ pad2 (d : Int)) with
  | none => simp
  | some rows =>
    intro h
    have := cleanRows_error_isIndex rows ab (pad2 (d : Int)) (.valueError msg) h
    cases this

theorem fetchAndClean_eq_specFetch (net : String → Option (List RawRow)) (ab : String)
    (d : Nat) :
    fetchAndClean net [] (baseUrl ++ ab ++ pad2 (d : Int)) ab (pad2 (d : Int)) =
      ([Eff.httpGet (baseUrl ++ ab ++ pad2 (d : Int))], specFetch net ab d) := by
  unfold fetchAndClean specFetch
  cases net (baseUrl ++ ab ++ pad2 (d : Int)) <;> simp

/-- On an exact abbreviation input with an in-range district, the Notebook
retrieval resolves exactly, passes validation, and performs precisely the
specification-side fetch at the specification-side URL. -/
theorem retrieveN_abbr_exact (tbl : List StateRecord) (net : String → Option (List RawRow))
    (hwf : WFTable tbl) (r : StateRecord) (hr : r ∈ tbl) (d : Nat)
    (h1 : 1 ≤ d) (hd : d ≤ r.seats) :
    retrieveN tbl net r.abbr (d : Int) =
      ([Eff.httpGet (baseUrl ++ r.abbr ++ pad2 (d : Int))], specFetch net r.abbr d) := by
  obtain ⟨hn1, hn2, hn3, hn4, hab2, hnm3, hlen, hseat⟩ := hwf
  have hne1 : ¬((d : Int) < 1) := by omega
  have h2 : r.abbr.length = 2 := hab2 r hr
  have hextract := extractOne_exact_key (fun x => x.abbr) tbl hn4
    (fun x hx => (hlen x hx).2) r hr
  have hseats := getNumSeats_eq tbl hn2 r hr
  have hnr : ¬((r.seats : Int) < (d : Int)) := by omega
  simp only [retrieveN, hne1, h2, hextract, hseats, hnr, if_false]
  norm_num
  exact fetchAndClean_eq_specFetch net r.abbr d

theorem msg_probe_ne {s t : String} (i : Nat) (c1 c2 : Char) (h1 : s.data[i]? = some c1)
    (h2 : t.data[i]? = some c2) (hne : c1 ≠ c2) : s ≠ t := by
  intro he
  rw [he] at h1
  rw [h1] at h2
  exact hne (Option.some.inj h2)

theorem invalid_probe0 (m : String) : (invalidStateMsg m).data[0]? = some 'N' := by
  show ((("No state could be found under the name '".data ++ m.data) ++
    "'. Please use a full abbreviation or state name.".data))[0]? = some 'N'
  rw [List.getElem?_append_left (by simp), List.getElem?_append_left (by decide)]
  decide

theorem invalid_probe3 (m : String) : (invalidStateMsg m).data[3]? = some 's' := by
  show ((("No state could be found under the name '".data ++ m.data) ++
    "'. Please use a full abbreviation or state name.".data))[3]? = some 's'
  rw [List.getElem?_append_left (by simp), List.getElem?_append_left (by decide)]
  decide

theorem noSeat_probe3 (ab : String) : (noSeatMsg ab).data[3]? = some 'd' := by
  show ((("No data found for state '".data ++ ab.data) ++
    "'. Please use a valid state abbreviation.".data))[3]? = some 'd'
  rw [List.getElem?_append_left (by simp), List.getElem?_append_left (by decide)]
  decide

theorem positive_probe0 : districtPositiveMsg.data[0]? = some 'D' := by decide

theorem range_probe0 (nm : String) (n : Nat) :
    (outOfRangeMsg nm n).data[0]? = some (Char.ofNat 39) := by
  unfold outOfRangeMsg
  split
  · show (((((Char.ofNat 39).toString.data ++ nm.data) ++ "' only has ".data) ++
      (toString n).data) ++ " districts.".data)[0]? = some (Char.ofNat 39)
    rw [List.getElem?_append_left (by simp), List.getElem?_append_left (by simp),
      List.getElem?_append_left (by simp), List.getElem?_append_left (by decide)]
    decide
  · show (((((Char.ofNat 39).toString.data ++ nm.data) ++ "' only has ".data) ++
      (toString n).data) ++ " district.".data)[0]? = some (Char.ofNat 39)
    rw [List.getElem?_append_left (by simp), List.getElem?_append_left (by simp),
      List.getElem?_append_left (by simp), List.getElem?_append_left (by decide)]
    decide

theorem invalid_ne_positive (m : String) : invalidStateMsg m ≠ districtPositiveMsg :=
  msg_probe_ne 0 'N' 'D' (invalid_probe0 m) positive_probe0 (by decide)

theorem invalid_ne_noSeat (m ab : String) : invalidStateMsg m ≠ noSeatMsg ab :=
  msg_probe_ne 3 's' 'd' (invalid_probe3 m) (noSeat_probe3 ab) (by decide)

theorem invalid_ne_range (m nm : String) (n : Nat) : invalidStateMsg m ≠ outOfRangeMsg nm n :=
  msg_probe_ne 0 'N' (Char.ofNat 39) (invalid_probe0 m) (range_probe0 nm n) (by decide)

theorem fetchAndClean_no_valueError (net : String → Option (List RawRow)) (pre : List Eff)
    (url ab ds msg : String) : (fetchAndClean net pre url ab ds).2 ≠ .error (.valueError msg) := by
  unfold fetchAndClean
  cases hnet : net url with
  | none => simp
  | some rows =>
    intro h
    have := cleanRows_error_isIndex rows ab ds (.valueError msg) h
    cases this

/-- Every `ValueError` path of the Notebook retrieval raises before the
fetch (empty effect trace) and carries one of the four district, length,
or seat-lookup messages. -/
theorem getNumSeats_error (tbl : List StateRecord) (ab : String) (e : PyErr)
    (h : getNumSeats tbl ab = .error e) : e = .valueError (noSeatMsg ab) := by
  unfold getNumSeats at h
  cases hls : lookupSeats tbl ab with
  | none => rw [hls] at h; exact (Except.error.inj h).symm
  | some n => rw [hls] at h; cases h

theorem retrieveN_valueError_shape (tbl : List StateRecord)
    (net : String → Option (List RawRow)) (state : String) (d : Int) (msg : String)
    (h : (retrieveN tbl net state d).2 = .error (.valueError msg)) :
    (retrieveN tbl net state d).1 = [] ∧
      (msg = districtPositiveMsg ∨ (state.length < 2 ∧ msg = invalidStateMsg state) ∨
        (∃ nm n, msg = outOfRangeMsg nm n) ∨ (∃ ab, msg = noSeatMsg ab)) := by
  by_cases h1 : d < 1
  · have hEq : retrieveN tbl net state d = ([], .error (.valueError districtPositiveMsg)) := by
      simp only [retrieveN, if_pos h1]
    rw [hEq] at h ⊢
    exact ⟨rfl, Or.inl ((PyErr.valueError.inj (Except.error.inj h)).symm)⟩
  · by_cases h2 : 2 < state.length
    · cases hx : extractOne state (tbl.map (·.name)) with
      | none =>
        have hEq : retrieveN tbl net state d = ([], .error .typeError) := by
          simp only [retrieveN, if_neg h1, if_pos h2, hx]
        rw [hEq] at h
        simp at h
      | some p =>
        obtain ⟨closest, score⟩ := p
        cases hl : lookupAbbrOfName tbl closest with
        | none =>
          have hEq : retrieveN tbl net state d = ([], .error .keyError) := by
            simp only [retrieveN, if_neg h1, if_pos h2, hx, hl]
          rw [hEq] at h
          simp at h
        | some ab =>
          cases hs : getNumSeats tbl ab with
          | error e =>
            have hEq : retrieveN tbl net state d = ([], .error e) := by
              simp only [retrieveN, if_neg h1, if_pos h2, hx, hl, hs]
            rw [hEq] at h ⊢
            have he := getNumSeats_error tbl ab e hs
            subst he
            refine ⟨rfl, Or.inr (Or.inr (Or.inr ⟨ab, ?_⟩))⟩
            exact (PyErr.valueError.inj (Except.error.inj h)).symm
          | ok numSeats =>
            by_cases hr : (numSeats : Int) < d
            · have hEq : retrieveN tbl net state d =
                  ([], .error (.valueError (outOfRangeMsg closest numSeats))) := by
                simp only [retrieveN, if_neg h1, if_pos h2, hx, hl, hs, if_pos hr]
              rw [hEq] at h ⊢
              refine ⟨rfl, Or.inr (Or.inr (Or.inl ⟨closest, numSeats, ?_⟩))⟩
              exact (PyErr.valueError.inj (Except.error.inj h)).symm
            · by_cases hsc : score < 100
              · have hEq : retrieveN tbl net state d =
                    fetchAndClean net [.notice (noticeNameMsg state closest)]
                      (baseUrl ++ ab ++ pad2 d) ab (pad2 d) := by
                  simp only [retrieveN, if_neg h1, if_pos h2, hx, hl, hs, if_neg hr, if_pos hsc]
                rw [hEq] at h
                exact absurd h (fetchAndClean_no_valueError _ _ _ _ _ _)
              · have hEq : retrieveN tbl net state d =
                    fetchAndClean net [] (baseUrl ++ state ++ pad2 d) ab (pad2 d) := by
                  simp only [retrieveN, if_neg h1, if_pos h2, hx, hl, hs, if_neg hr, if_neg hsc]
                rw [hEq] at h
                exact absurd h (fetchAndClean_no_valueError _ _ _ _ _ _)
    · by_cases h3 : state.length < 2
      · have hEq : retrieveN tbl net state d =
            ([], .error (.valueError (invalidStateMsg state))) := by
          simp only [retrieveN, if_neg h1, if_neg h2, if_pos h3]
        rw [hEq] at h ⊢
        refine ⟨rfl, Or.inr (Or.inl ⟨h3, ?_⟩)⟩
        exact (PyErr.valueError.inj (Except.error.inj h)).symm
      · cases hx : extractOne state (tbl.map (·.abbr)) with
        | none =>
          have hEq : retrieveN tbl net state d = ([], .error .typeError) := by
            simp only [retrieveN, if_neg h1, if_neg h2, if_neg h3, hx]
          rw [hEq] at h
          simp at h
        | some p =>
          obtain ⟨closest, score⟩ := p
          cases hs : getNumSeats tbl closest with
          | error e =>
            have hEq : retrieveN tbl net state d = ([], .error e) := by
              simp only [retrieveN, if_neg h1, if_neg h2, if_neg h3, hx, hs]
            rw [hEq] at h ⊢
            have he := getNumSeats_error tbl closest e hs
            subst he
            refine ⟨rfl, Or.inr (Or.inr (Or.inr ⟨closest, ?_⟩))⟩
            exact (PyErr.valueError.inj (Except.error.inj h)).symm
          | ok numSeats =>
            by_cases hr : (numSeats : Int) < d
            · cases hab : lookupNameOfAbbr tbl closest with
              | none =>
                have hEq : retrieveN tbl net state d = ([], .error .keyError) := by
                  simp only [retrieveN, if_neg h1, if_neg h2, if_neg h3, hx, hs, if_pos hr, hab]
                rw [hEq] at h
                simp at h
              | some nm =>
                have hEq : retrieveN tbl net state d =
                    ([], .error (.valueError (outOfRangeMsg nm numSeats))) := by
                  simp only [retrieveN, if_neg h1, if_neg h2, if_neg h3, hx, hs, if_pos hr, hab]
                rw [hEq] at h ⊢
                refine ⟨rfl, Or.inr (Or.inr (Or.inl ⟨nm, numSeats, ?_⟩))⟩
                exact (PyErr.valueError.inj (Except.error.inj h)).symm
            · by_cases hsc : score < 100
              · have hEq : retrieveN tbl net state d =
                    fetchAndClean net [.notice (noticeAbbrMsg state closest)]
                      (baseUrl ++ closest ++ pad2 d) closest (pad2 d) := by
                  simp only [retrieveN, if_neg h1, if_neg h2, if_neg h3, hx, hs, if_neg hr,
                    if_pos hsc]
                rw [hEq] at h
                exact absurd h (fetchAndClean_no_valueError _ _ _ _ _ _)
              · have hEq : retrieveN tbl net state d =
                    fetchAndClean net [] (baseUrl ++ state ++ pad2 d) closest (pad2 d) := by
                  simp only [retrieveN, if_neg h1, if_neg h2, if_neg h3, hx, hs, if_neg hr,
                    if_neg hsc]
                rw [hEq] at h
                exact absurd h (fetchAndClean_no_valueError _ _ _ _ _ _)

theorem specDistrictRows_eq (net : String → Option (List RawRow)) (ab : String) (d : Nat)
    (rows : List OutRow) (h : specFetch net ab d = .ok rows) :
    specDistrictRows net ab d = rows := by
  unfold specDistrictRows
  rw [h]
  rfl

theorem runDistricts_ok (tbl : List StateRecord) (net : String → Option (List RawRow))
    (hwf : WFTable tbl) (r : StateRecord) (hr : r ∈ tbl) :
    ∀ ds : List Nat, (∀ d ∈ ds, 1 ≤ d ∧ d ≤ r.seats) →
      (∀ d ∈ ds, ∃ rows, specFetch net r.abbr d = .ok rows) →
      runDistricts tbl net r.abbr ds =
        (ds.map (fun d : Nat => Eff.httpGet (baseUrl ++ r.abbr ++ pad2 (d : Int))),
          .ok (ds.map (specDistrictRows net r.abbr))) := by
  intro ds
  induction ds with
  | nil => intro _ _; rfl
  | cons d ds ih =>
    intro hb hnet
    obtain ⟨rows, hrows⟩ := hnet d (List.mem_cons_self d ds)
    have hret := retrieveN_abbr_exact tbl net hwf r hr d (hb d (List.mem_cons_self d ds)).1
      (hb d (List.mem_cons_self d ds)).2
    have hihEq := ih (fun x hx => hb x (List.mem_cons_of_mem d hx))
      (fun x hx => hnet x (List.mem_cons_of_mem d hx))
    have hsd := specDistrictRows_eq net r.abbr d rows hrows
    simp [runDistricts, hret, hrows, hihEq, hsd]

theorem runState_ok (tbl : List StateRecord) (net : String → Option (List RawRow))
    (hwf : WFTable tbl) (r : StateRecord) (hr : r ∈ tbl)
    (hnet_r : ∀ d, 1 ≤ d → d ≤ r.seats → ∃ rows, specFetch net r.abbr d = .ok rows) :
    runState tbl net r.abbr =
      ((List.range' 1 r.seats).map (fun d : Nat => Eff.httpGet (baseUrl ++ r.abbr ++ pad2 (d : Int))),
        .ok ((List.range' 1 r.seats).map (specDistrictRows net r.abbr))) := by
  have hseats := getNumSeats_eq tbl hwf.2.1 r hr
  have hds := runDistricts_ok tbl net hwf r hr (List.range' 1 r.seats)
    (fun d hd => by rw [List.mem_range'] at hd; omega)
    (fun d hd => hnet_r d (by rw [List.mem_range'] at hd; omega)
      (by rw [List.mem_range'] at hd; omega))
  simp [runState, hseats, hds]

theorem runStatesAll_ok (tbl : List StateRecord) (net : String → Option (List RawRow))
    (hwf : WFTable tbl)
    (hnet : ∀ r ∈ tbl, ∀ d, 1 ≤ d → d ≤ r.seats → ∃ rows, specFetch net r.abbr d = .ok rows) :
    ∀ rs : List StateRecord, (∀ r ∈ rs, r ∈ tbl) →
      runStatesAll tbl net rs =
        ((rs.map (fun r => (List.range' 1 r.seats).map
            (fun d : Nat => Eff.httpGet (baseUrl ++ r.abbr ++ pad2 (d : Int))))).flatten,
          .ok ((rs.map (fun r =>
            (List.range' 1 r.seats).map (specDistrictRows net r.abbr))).flatten)) := by
  intro rs
  induction rs with
  | nil => intro _; rfl
  | cons r rs ih =>
    intro hmem
    have hrt : r ∈ tbl := hmem r (List.mem_cons_self r rs)
    have hst := runState_ok tbl net hwf r hrt (hnet r hrt)
    have hihEq := ih (fun x hx => hmem x (List.mem_cons_of_mem r hx))
    simp [runStatesAll, hst, hihEq]

theorem flatten_flatten_map {α β : Type} (g : α → List (List β)) :
    ∀ l : List α, ((l.map g).flatten).flatten = (l.map (fun x => (g x).flatten)).flatten
  | [] => rfl
  | x :: xs => by
    simp only [List.map_cons, List.flatten_cons, List.flatten_append,
      flatten_flatten_map g xs]

theorem range'_one_ne_nil (n : Nat) (h : 1 ≤ n) : List.range' 1 n ≠ [] := by
  cases n with
  | zero => omega
  | succ m => simp [List.range'_succ]

/-- Aggregation over every state of the table, when every in-range fetch
succeeds: the trace is one request per (state, district) pair in table
order and ascending district order, and the result is the
specification-side ResultSet. -/
theorem getAllData_none_ok (abrTbl : List (String × String)) (tbl : List StateRecord)
    (net : String → Option (List RawRow)) (hwf : WFTable tbl)
    (hnet : ∀ r ∈ tbl, ∀ d, 1 ≤ d → d ≤ r.seats → ∃ rows, specFetch net r.abbr d = .ok rows)
    (hne : tbl ≠ []) :
    getAllData abrTbl tbl net none =
      ((tbl.map (fun r => (List.range' 1 r.seats).map
          (fun d : Nat => Eff.httpGet (baseUrl ++ r.abbr ++ pad2 (d : Int))))).flatten,
        .ok (specResultSet tbl net)) := by
  have hall := runStatesAll_ok tbl net hwf hnet tbl (fun x hx => hx)
  have hflat := flatten_flatten_map
    (fun r => (List.range' 1 r.seats).map (specDistrictRows net r.abbr)) tbl
  have hnonempty : ((tbl.map (fun r =>
      (List.range' 1 r.seats).map (specDistrictRows net r.abbr))).flatten).isEmpty = false := by
    cases tbl with
    | nil => exact absurd rfl hne
    | cons r rs =>
      have hs1 : 1 ≤ r.seats := hwf.2.2.2.2.2.2.2 r (List.mem_cons_self r rs)
      have : List.range' 1 r.seats ≠ [] := range'_one_ne_nil r.seats hs1
      cases hrg : List.range' 1 r.seats with
      | nil => exact absurd hrg this
      | cons d ds => simp [hrg]
  simp only [getAllData, hall, hnonempty]
  unfold specResultSet
  rw [← hflat]
  simp

theorem runOneGiven_err (abrTbl : List (String × String)) (tbl : List StateRecord)
    (net : String → Option (List RawRow)) (s : String) (e : PyErr)
    (h : resolveForAll abrTbl s = .error e) :
    runOneGiven abrTbl tbl net s = ([], .error e) := by
  simp [runOneGiven, h]

theorem runOneGiven_ok_res (abrTbl : List (String × String)) (tbl : List StateRecord)
    (net : String → Option (List RawRow)) (s ab : String)
    (h : resolveForAll abrTbl s = .ok ab) :
    runOneGiven abrTbl tbl net s = runState tbl net ab := by
  simp [runOneGiven, h]

theorem runStatesGiven_abort (abrTbl : List (String × String)) (tbl : List StateRecord)
    (net : String → Option (List RawRow)) :
    ∀ (l : List String) (i : Nat) (hi : i < l.length) (e : PyErr),
      (∀ j (hj : j < i), ∃ p : List Eff × List (List OutRow),
        runOneGiven abrTbl tbl net (l.get ⟨j, by omega⟩) = (p.1, .ok p.2)) →
      (runOneGiven abrTbl tbl net (l.get ⟨i, hi⟩)).2 = .error e →
      (runStatesGiven abrTbl tbl net l).2 = .error e := by
  intro l
  induction l with
  | nil => intro i hi; simp at hi
  | cons s ss ih =>
    intro i hi e hpre herr
    cases i with
    | zero =>
      have hget : (s :: ss).get ⟨0, hi⟩ = s := rfl
      rw [hget] at herr
      rcases hp : runOneGiven abrTbl tbl net s with ⟨tr, res⟩
      rw [hp] at herr
      have hres : res = .error e := herr
      subst hres
      simp [runStatesGiven, hp]
    | succ j =>
      obtain ⟨p, hp0⟩ := hpre 0 (Nat.succ_pos j)
      have hp0s : runOneGiven abrTbl tbl net s = (p.1, Except.ok p.2) := hp0
      have hj : j < ss.length := by simpa using hi
      have hget : (s :: ss).get ⟨j + 1, hi⟩ = ss.get ⟨j, hj⟩ := rfl
      rw [hget] at herr
      have hrec := ih j hj e
        (fun j2 hj2 => by
          obtain ⟨p, hp2⟩ := hpre (j2 + 1) (by omega)
          exact ⟨p, hp2⟩)
        herr
      rcases h2 : runStatesGiven abrTbl tbl net ss with ⟨tr2, res2⟩
      rw [h2] at hrec
      have hres2 : res2 = .error e := hrec
      subst hres2
      simp [runStatesGiven, hp0s, h2]

theorem runStatesGiven_ok (abrTbl : List (String × String)) (tbl : List StateRecord)
    (net : String → Option (List RawRow)) (hwf : WFTable tbl)
    (hnet : ∀ r ∈ tbl, ∀ d, 1 ≤ d → d ≤ r.seats → ∃ rows, specFetch net r.abbr d = .ok rows) :
    ∀ (l : List String) (rs : List StateRecord),
      List.Forall₂ (fun s r => r ∈ tbl ∧ resolveForAll abrTbl s = .ok r.abbr) l rs →
      runStatesGiven abrTbl tbl net l =
        ((rs.map (fun r => (List.range' 1 r.seats).map
            (fun d : Nat => Eff.httpGet (baseUrl ++ r.abbr ++ pad2 (d : Int))))).flatten,
          .ok ((rs.map (fun r =>
            (List.range' 1 r.seats).map (specDistrictRows net r.abbr))).flatten)) := by
  intro l rs hF
  induction hF with
  | nil => rfl
  | cons hsr hrest ih =>
    rename_i s r l2 rs2
    have hone := runOneGiven_ok_res abrTbl tbl net s r.abbr hsr.2
    have hst := runState_ok tbl net hwf r hsr.1 (hnet r hsr.1)
    simp [runStatesGiven, hone, hst, ih]

set_option maxRecDepth 1000000

/-- Claim C1 (code evaluation at the failing input): on the exact
full-name input "Tennessee" with district 7 — a district accepted by
validation — the Notebook retrieval requests the URL built from the
literal full name, although the table maps "Tennessee" to "TN" and the
resulting URL differs from the one built from the abbreviation; the
`Functions.py` copy does the same. The fetcher contract (base path plus
abbreviation plus zero-padded district) is violated on this input. -/
theorem c1_exact_fullname_url_uses_literal_name :
    (retrieveN sampleTable sampleNet "Tennessee" 7).1 =
      [Eff.httpGet (baseUrl ++ "Tennessee" ++ "07")] ∧
    lookupAbbrOfName sampleTable "Tennessee" = some "TN" ∧
    baseUrl ++ "Tennessee" ++ "07" ≠ baseUrl ++ "TN" ++ "07" ∧
    (retrieveF sampleAbrTable sampleNet "Tennessee" 7).1 =
      [Eff.httpGet (baseUrl ++ "Tennessee" ++ "07")] := by
  refine ⟨by decide, by decide, by decide, by decide⟩

/-- Claim C2: for every record of a well-formed ReferenceTable, resolving
its exact two-letter abbreviation returns that same abbreviation with
match confidence 100, and resolving its exact full name returns the
corresponding abbreviation with match confidence 100 (no inexact-match
notice in either case). -/
theorem c2_exact_inputs_resolve_at_100 (tbl : List StateRecord) (hwf : WFTable tbl)
    (r : StateRecord) (hr : r ∈ tbl) :
    resolveState tbl r.abbr = .ok (r.abbr, 100, []) ∧
    resolveState tbl r.name = .ok (r.abbr, 100, []) :=
  ⟨resolveState_abbr_exact tbl hwf r hr, resolveState_name_exact tbl hwf r hr⟩

/-- Witness for C2 at the sample table and the Tennessee record. -/
theorem c2_exact_inputs_resolve_at_100_witness :
    WFTable sampleTable ∧ (⟨"Tennessee", "TN", 7⟩ : StateRecord) ∈ sampleTable ∧
    (resolveState sampleTable "TN" = .ok ("TN", 100, []) ∧
      resolveState sampleTable "Tennessee" = .ok ("TN", 100, [])) :=
  ⟨by decide, by decide,
    c2_exact_inputs_resolve_at_100 sampleTable (by decide) ⟨"Tennessee", "TN", 7⟩ (by decide)⟩

/-- Claim C3: with the state resolved to record `r` (exact abbreviation
input) the retrieval fails with the district `ValueError` exactly when
the district is below 1 or above the seat count, and otherwise proceeds
to the fetch and never raises a `ValueError`; the bound message names the
state and uses plural phrasing for more than one district and singular
phrasing for exactly one. -/
theorem c3_district_validation (tbl : List StateRecord)
    (net : String → Option (List RawRow)) (hwf : WFTable tbl)
    (r : StateRecord) (hr : r ∈ tbl) (d : Int) :
    (d < 1 → retrieveN tbl net r.abbr d = ([], .error (.valueError districtPositiveMsg))) ∧
    (1 ≤ d → (r.seats : Int) < d →
      retrieveN tbl net r.abbr d = ([], .error (.valueError (outOfRangeMsg r.name r.seats)))) ∧
    (1 ≤ d → d ≤ (r.seats : Int) →
      retrieveN tbl net r.abbr d =
        ([Eff.httpGet (baseUrl ++ r.abbr ++ pad2 d)], specFetch net r.abbr d.toNat) ∧
      ∀ msg, (retrieveN tbl net r.abbr d).2 ≠ .error (.valueError msg)) ∧
    (1 < r.seats → outOfRangeMsg r.name r.seats =
      "'" ++ r.name ++ "' only has " ++ toString r.seats ++ " districts.") ∧
    (r.seats = 1 → outOfRangeMsg r.name r.seats =
      "'" ++ r.name ++ "' only has " ++ toString r.seats ++ " district.") := by
  obtain ⟨hn1, hn2, hn3, hn4, hab2, hnm3, hlen, hseat⟩ := hwf
  have h2 : r.abbr.length = 2 := hab2 r hr
  have hextract := extractOne_exact_key (fun x => x.abbr) tbl hn4
    (fun x hx => (hlen x hx).2) r hr
  have hseats := getNumSeats_eq tbl hn2 r hr
  have hnm := lookupNameOfAbbr_eq tbl hn2 r hr
  refine ⟨?_, ?_, ?_, ?_, ?_⟩
  · intro h1
    simp [retrieveN, h1]
  · intro h1 hgt
    have hne1 : ¬(d < 1) := by omega
    simp [retrieveN, hne1, h2, hextract, hseats, hgt, hnm]
  · intro h1 hle
    have hcast : ((d.toNat : Nat) : Int) = d := Int.toNat_of_nonneg (by omega)
    have hmain := retrieveN_abbr_exact tbl net
      ⟨hn1, hn2, hn3, hn4, hab2, hnm3, hlen, hseat⟩ r hr d.toNat (by omega) (by omega)
    rw [hcast] at hmain
    refine ⟨hmain, ?_⟩
    intro msg hcon
    rw [hmain] at hcon
    exact specFetch_no_valueError net r.abbr d.toNat msg hcon
  · intro h
    simp [outOfRangeMsg, h]
  · intro h
    simp [outOfRangeMsg, h]

/-- Witness for C3 at the sample table: Wyoming (one seat) with district 2
fails with the singular message before any fetch; concrete singular and
plural renderings. -/
theorem c3_district_validation_witness :
    WFTable sampleTable ∧ (1 : Int) ≤ 2 ∧
    ((⟨"Wyoming", "WY", 1⟩ : StateRecord).seats : Int) < 2 ∧
    retrieveN sampleTable sampleNet "WY" 2 =
      ([], .error (.valueError (outOfRangeMsg "Wyoming" 1))) ∧
    outOfRangeMsg "Wyoming" 1 = "'Wyoming' only has 1 district." ∧
    outOfRangeMsg "Tennessee" 7 = "'Tennessee' only has 7 districts." := by
  refine ⟨by decide, by decide, by decide, ?_, by decide, by decide⟩
  exact (c3_district_validation sampleTable sampleNet (by decide)
    ⟨"Wyoming", "WY", 1⟩ (by decide) 2).2.1 (by decide) (by decide)

/-- Claim C4: for every input of length at least two whose best similarity
score is strictly below 100, the resolver succeeds, substitutes a known
abbreviation derived from the best match for the literal input (the
returned value never equals the input), and prints the inexact-match
notice. -/
theorem c4_inexact_match_substituted (tbl : List StateRecord) (hwf : WFTable tbl)
    (state : String) (hlen2 : 2 ≤ state.length) (m : String) (sc : Nat)
    (hbm : bestMatch tbl state = some (m, sc)) (hsc : sc < 100) :
    ∃ ab, resolveState tbl state =
        .ok (ab, sc, [Eff.notice (if 2 < state.length then noticeNameMsg state m
          else noticeAbbrMsg state m)]) ∧
      ab ≠ state ∧ (∃ r ∈ tbl, ab = r.abbr) := by
  obtain ⟨hn1, hn2, hn3, hn4, hab2, hnm3, hlen, hseat⟩ := hwf
  by_cases hgt : 2 < state.length
  · unfold bestMatch at hbm
    rw [if_pos hgt] at hbm
    obtain ⟨hmem, hscEq⟩ := extractOne_mem_score state _ m sc hbm
    obtain ⟨r, hrtbl, hrm⟩ := List.mem_map.mp hmem
    have hlook : lookupAbbrOfName tbl m = some r.abbr := by
      rw [← hrm]
      exact lookupAbbrOfName_eq tbl hn1 r hrtbl
    refine ⟨r.abbr, ?_, ?_, ⟨r, hrtbl, rfl⟩⟩
    · simp [resolveState, hgt, hbm, hlook, hsc]
    · intro he
      have hl2 := hab2 r hrtbl
      rw [he] at hl2
      omega
  · have hlt2 : ¬state.length < 2 := by omega
    unfold bestMatch at hbm
    rw [if_neg hgt] at hbm
    obtain ⟨hmem, hscEq⟩ := extractOne_mem_score state _ m sc hbm
    obtain ⟨r, hrtbl, hrm⟩ := List.mem_map.mp hmem
    refine ⟨m, ?_, ?_, ⟨r, hrtbl, hrm.symm⟩⟩
    · simp [resolveState, hgt, hlt2, hbm, hsc]
    · intro he
      rw [hscEq, he, fuzzRatio_self] at hsc
      omega

/-- Witness for C4 at the sample table and the misspelled input
"Californa", whose best match is California at score 95. -/
theorem c4_inexact_match_substituted_witness :
    WFTable sampleTable ∧ 2 ≤ ("Californa" : String).length ∧
    bestMatch sampleTable "Californa" = some ("California", 95) ∧ 95 < 100 ∧
    ∃ ab, resolveState sampleTable "Californa" =
        .ok (ab, 95, [Eff.notice (if 2 < ("Californa" : String).length
          then noticeNameMsg "Californa" "California"
          else noticeAbbrMsg "Californa" "California")]) ∧
      ab ≠ "Californa" ∧ (∃ r ∈ sampleTable, ab = r.abbr) :=
  ⟨by decide, by decide, by decide, by decide,
    c4_inexact_match_substituted sampleTable (by decide) "Californa" (by decide)
      "California" 95 (by decide) (by decide)⟩

/-- Claim C5: in the explicit-states mode of `get_all_data`, once all
earlier identifiers have been processed successfully, an identifier whose
best similarity score (against full names for inputs longer than two
characters, abbreviations otherwise) is strictly below 80 makes the whole
aggregation fail with the no-close-match `ValueError`, and an identifier
whose best score is at least 80 is accepted and resolved to the best
match. -/
theorem c5_threshold_80 (abrTbl : List (String × String)) (tbl : List StateRecord)
    (net : String → Option (List RawRow)) (l : List String) (i : Nat) (hi : i < l.length)
    (hpre : ∀ j (hj : j < i), ∃ p : List Eff × List (List OutRow),
      runOneGiven abrTbl tbl net (l.get ⟨j, by omega⟩) = (p.1, .ok p.2))
    (m : String) (sc : Nat)
    (hx : extractOne (l.get ⟨i, hi⟩)
      (if 2 < (l.get ⟨i, hi⟩).length then abrTbl.map (·.1) else abrTbl.map (·.2)) =
      some (m, sc)) :
    (sc < 80 →
      (getAllData abrTbl tbl net (some l)).2 =
        .error (.valueError (noCloseMsg (l.get ⟨i, hi⟩)))) ∧
    (80 ≤ sc →
      getClosestMatch (l.get ⟨i, hi⟩)
        (if 2 < (l.get ⟨i, hi⟩).length then abrTbl.map (·.1) else abrTbl.map (·.2)) =
        .ok m) := by
  constructor
  · intro hsc
    have hres : resolveForAll abrTbl (l.get ⟨i, hi⟩) =
        .error (.valueError (noCloseMsg (l.get ⟨i, hi⟩))) := by
      unfold resolveForAll
      by_cases hlen : 2 < (l.get ⟨i, hi⟩).length
      · rw [if_pos hlen] at hx
        simp only [List.get_eq_getElem] at hx
        have hgc : getClosestMatch (l.get ⟨i, hi⟩) (abrTbl.map (·.1)) =
            .error (.valueError (noCloseMsg (l.get ⟨i, hi⟩))) := by
          simp [getClosestMatch, hx, hsc]
        rw [if_pos hlen, hgc]
      · rw [if_neg hlen] at hx
        simp only [List.get_eq_getElem] at hx
        have hgc : getClosestMatch (l.get ⟨i, hi⟩) (abrTbl.map (·.2)) =
            .error (.valueError (noCloseMsg (l.get ⟨i, hi⟩))) := by
          simp [getClosestMatch, hx, hsc]
        rw [if_neg hlen]
        exact hgc
    have herr : (runOneGiven abrTbl tbl net (l.get ⟨i, hi⟩)).2 =
        .error (.valueError (noCloseMsg (l.get ⟨i, hi⟩))) := by
      rw [runOneGiven_err abrTbl tbl net _ _ hres]
    have habort := runStatesGiven_abort abrTbl tbl net l i hi _ hpre herr
    cases l with
    | nil => simp at hi
    | cons s0 ss =>
      rcases hrun : runStatesGiven abrTbl tbl net (s0 :: ss) with ⟨tr, res⟩
      rw [hrun] at habort
      have hres2 : res = .error (.valueError (noCloseMsg ((s0 :: ss).get ⟨i, hi⟩))) := habort
      subst hres2
      simp [getAllData, hrun]
  · intro hge
    simp only [List.get_eq_getElem] at hx
    simp [getClosestMatch, hx, Nat.not_lt.mpr hge]

/-- Witness for C5: the identifier "XX" has best score 0 against the tiny
table's abbreviations, and the whole aggregation fails with the
no-close-match message. -/
theorem c5_threshold_80_witness :
    (0 : Nat) < (["XX"] : List String).length ∧
    extractOne ((["XX"] : List String).get ⟨0, by decide⟩)
      (if 2 < ((["XX"] : List String).get ⟨0, by decide⟩).length then tinyAbrTable.map (·.1)
        else tinyAbrTable.map (·.2)) = some ("TN", 0) ∧
    (0 : Nat) < 80 ∧
    (getAllData tinyAbrTable tinyTable tinyNet (some ["XX"])).2 =
      .error (.valueError (noCloseMsg "XX")) := by
  refine ⟨by decide, by decide, by decide, ?_⟩
  exact (c5_threshold_80 tinyAbrTable tinyTable tinyNet ["XX"] 0 (by decide)
    (fun j hj => absurd hj (Nat.not_lt_zero j)) "TN" 0 (by decide)).1 (by decide)

/-- Claim C6: for every fetched row whose combined name-and-party field
splits into a non-empty whitespace token list, the per-row cleanup sets
the party to the last token with all parenthesis characters removed and
the candidate name to the remaining tokens joined by single spaces; in
particular "Jane Doe (D)" yields name "Jane Doe" and party "D". -/
theorem c6_party_extraction :
    (∀ (ab ds : String) (row : RawRow) (t : String) (ts : List String),
      pySplit row.firstLastP = t :: ts →
      splitRow ab ds row = .ok
        { stateAbbr := ab, district := ds,
          firstLast := String.intercalate " " ((t :: ts).dropLast),
          party := stripParens ((t :: ts).getLastD ""), rest := row.rest }) ∧
    (∀ (ab ds : String) (rest : List String),
      splitRow ab ds ⟨"Jane Doe (D)", rest⟩ =
        .ok { stateAbbr := ab, district := ds, firstLast := "Jane Doe",
              party := "D", rest := rest }) := by
  constructor
  · intro ab ds row t ts h
    unfold splitRow
    rw [h]
  · intro ab ds rest
    rfl

/-- Witness for C6 at a concrete row. -/
theorem c6_party_extraction_witness :
    pySplit "Jane Doe (D)" = ["Jane", "Doe", "(D)"] ∧
    splitRow "TN" "03" ⟨"Jane Doe (D)", ["1000"]⟩ =
      .ok { stateAbbr := "TN", district := "03",
            firstLast := String.intercalate " " (["Jane", "Doe", "(D)"].dropLast),
            party := stripParens (["Jane", "Doe", "(D)"].getLastD ""), rest := ["1000"] } :=
  ⟨by decide, c6_party_extraction.1 "TN" "03" ⟨"Jane Doe (D)", ["1000"]⟩ "Jane"
    ["Doe", "(D)"] (by decide)⟩

/-- Claim C7: a state input shorter than two characters makes the
retrieval fail with the invalid-state `ValueError` with an empty effect
trace (before any matching or fetching), and an input of length at least
two never produces that error. -/
theorem c7_short_input_rejected (tbl : List StateRecord)
    (net : String → Option (List RawRow)) (state : String) :
    (∀ d : Int, 1 ≤ d → state.length < 2 →
      retrieveN tbl net state d = ([], .error (.valueError (invalidStateMsg state)))) ∧
    (∀ (d : Int) (m : String), 2 ≤ state.length →
      (retrieveN tbl net state d).2 ≠ .error (.valueError (invalidStateMsg m))) := by
  constructor
  · intro d h1 hlen
    have hne1 : ¬(d < 1) := by omega
    have hn2 : ¬(2 < state.length) := by omega
    simp [retrieveN, hne1, hn2, hlen]
  · intro d m hlen h
    obtain ⟨htr, hcase⟩ := retrieveN_valueError_shape tbl net state d (invalidStateMsg m) h
    rcases hcase with hc | ⟨hl, hc⟩ | ⟨nm, n, hc⟩ | ⟨ab, hc⟩
    · exact invalid_ne_positive m hc
    · omega
    · exact invalid_ne_range m nm n hc
    · exact invalid_ne_noSeat m ab hc

/-- Witness for C7 at the one-character input "T". -/
theorem c7_short_input_rejected_witness :
    (1 : Int) ≤ 1 ∧ ("T" : String).length < 2 ∧
    retrieveN tinyTable tinyNet "T" 1 =
      ([], .error (.valueError (invalidStateMsg "T"))) :=
  ⟨by decide, by decide,
    (c7_short_input_rejected tinyTable tinyNet "T").1 1 (by decide) (by decide)⟩

/-- Claim C8: when every in-range fetch succeeds, `get_all_data` returns
exactly the concatenation of the per-district row lists, state by state in
table order (no filter) or supplied-list order, and districts 1 through
seat_count ascending within each state; in the no-filter mode the request
trace is exactly one HTTP request per (state, district) pair in that
order, so every in-range district is fetched exactly once and no other
district is fetched. -/
theorem c8_resultset_order (abrTbl : List (String × String)) (tbl : List StateRecord)
    (net : String → Option (List RawRow)) (hwf : WFTable tbl)
    (hnet : ∀ r ∈ tbl, ∀ d, 1 ≤ d → d ≤ r.seats →
      ∃ rows, specFetch net r.abbr d = .ok rows) :
    (tbl ≠ [] →
      getAllData abrTbl tbl net none =
        ((tbl.map (fun r => (List.range' 1 r.seats).map
            (fun d : Nat => Eff.httpGet (baseUrl ++ r.abbr ++ pad2 (d : Int))))).flatten,
          .ok (specResultSet tbl net))) ∧
    (∀ (l : List String) (rs : List StateRecord), l ≠ [] →
      List.Forall₂ (fun s r => r ∈ tbl ∧ resolveForAll abrTbl s = .ok r.abbr) l rs →
      (getAllData abrTbl tbl net (some l)).2 =
        .ok ((rs.map (fun r =>
          ((List.range' 1 r.seats).map (specDistrictRows net r.abbr)).flatten)).flatten)) := by
  constructor
  · exact fun hne => getAllData_none_ok abrTbl tbl net hwf hnet hne
  · intro l rs hlne hF
    cases l with
    | nil => exact absurd rfl hlne
    | cons s0 ss =>
      have hrun := runStatesGiven_ok abrTbl tbl net hwf hnet (s0 :: ss) rs hF
      cases hF with
      | cons hsr hrest =>
        rename_i r rs2
        have hs1 : 1 ≤ r.seats := hwf.2.2.2.2.2.2.2 r hsr.1
        have hflat := flatten_flatten_map
          (fun r => (List.range' 1 r.seats).map (specDistrictRows net r.abbr)) (r :: rs2)
        have hnonempty : (((r :: rs2).map (fun r =>
            (List.range' 1 r.seats).map (specDistrictRows net r.abbr))).flatten).isEmpty =
            false := by
          have hne2 : List.range' 1 r.seats ≠ [] := range'_one_ne_nil r.seats hs1
          cases hrg : List.range' 1 r.seats with
          | nil => exact absurd hrg hne2
          | cons d ds => simp [hrg]
        simp only [getAllData, hrun, hnonempty]
        exact congrArg Except.ok hflat

/-- Witness for C8 at the tiny table in no-filter mode. -/
theorem c8_resultset_order_witness :
    tinyTable ≠ [] ∧ WFTable tinyTable ∧
    getAllData tinyAbrTable tinyTable tinyNet none =
      ((tinyTable.map (fun r => (List.range' 1 r.seats).map
          (fun d : Nat => Eff.httpGet (baseUrl ++ r.abbr ++ pad2 (d : Int))))).flatten,
        .ok (specResultSet tinyTable tinyNet)) := by
  refine ⟨by decide, by decide, ?_⟩
  refine (c8_resultset_order tinyAbrTable tinyTable tinyNet (by decide) ?_).1 (by decide)
  intro r hr d h1 hd
  fin_cases hr <;> simp only [] at hd <;> interval_cases d <;> exact ⟨_, rfl⟩

/-- Claim C9 counterexample: with the same reference data and a network
answering every URL, "TN" district 8 makes the Notebook implementation
raise the district-bound `ValueError` without fetching, while the
`Functions.py` implementation fetches and returns rows — the
implementations do not raise errors under the same conditions. -/
theorem c9_error_conditions_differ :
    (retrieveN sampleTable allNet "TN" 8).2 =
      .error (.valueError (outOfRangeMsg "Tennessee" 7)) ∧
    (retrieveN sampleTable allNet "TN" 8).1 = [] ∧
    (retrieveF sampleAbrTable allNet "TN" 8).2 =
      .ok (sampleRows.map (fun row => ⟨"TN", "08", row.firstLastP, row.rest⟩)) ∧
    (retrieveF sampleAbrTable allNet "TN" 8).1 =
      [Eff.httpGet (baseUrl ++ "TN" ++ "08")] := by
  refine ⟨by decide, by decide, by decide, by decide⟩

/-- Claim C9 amended: `Functions.py` and `data_pull.py` implement the very
same function; on inputs all three implementations accept — an exact
abbreviation with a district within the Notebook bounds — all three
request the same URL and work from the same fetched rows, differing only
in cleanup (the Notebook output is the per-row name/party split of the
raw rows the others tag unchanged). -/
theorem c9_amended_equivalence (tbl : List StateRecord)
    (net : String → Option (List RawRow)) (hwf : WFTable tbl)
    (r : StateRecord) (hr : r ∈ tbl) (d : Nat) (h1 : 1 ≤ d) (hd : d ≤ r.seats) :
    (∀ (dict : List (String × String)) (net2 : String → Option (List RawRow))
      (st : String) (dist : Int),
      retrieveF dict net2 st dist = retrieveDP dict net2 st dist) ∧
    (retrieveN tbl net r.abbr (d : Int)).1 =
      [Eff.httpGet (baseUrl ++ r.abbr ++ pad2 (d : Int))] ∧
    (retrieveF (pairsOf tbl) net r.abbr (d : Int)).1 =
      [Eff.httpGet (baseUrl ++ r.abbr ++ pad2 (d : Int))] ∧
    (∀ rows, net (baseUrl ++ r.abbr ++ pad2 (d : Int)) = some rows →
      (retrieveF (pairsOf tbl) net r.abbr (d : Int)).2 =
        .ok (rows.map (fun row => ⟨r.abbr, pad2 (d : Int), row.firstLastP, row.rest⟩)) ∧
      (retrieveN tbl net r.abbr (d : Int)).2 = cleanRows r.abbr (pad2 (d : Int)) rows) := by
  have hmain := retrieveN_abbr_exact tbl net hwf r hr d h1 hd
  have h2 : r.abbr.length = 2 := hwf.2.2.2.2.1 r hr
  have hmap2 : (pairsOf tbl).map (·.2) = tbl.map (·.abbr) := by simp [pairsOf]
  have hextract : extractOne r.abbr ((pairsOf tbl).map (·.2)) = some (r.abbr, 100) := by
    rw [hmap2]
    exact extractOne_exact_key (fun x => x.abbr) tbl hwf.2.2.2.1
      (fun x hx => (hwf.2.2.2.2.2.2.1 x hx).2) r hr
  have hF : retrieveF (pairsOf tbl) net r.abbr (d : Int) =
      fetchF net [] (baseUrl ++ r.abbr ++ pad2 (d : Int)) r.abbr (pad2 (d : Int)) := by
    simp [retrieveF, h2, hextract]
  refine ⟨fun dict net2 st dist => rfl, ?_, ?_, ?_⟩
  · rw [hmain]
  · rw [hF]
    unfold fetchF
    cases net (baseUrl ++ r.abbr ++ pad2 (d : Int)) <;> simp
  · intro rows hrows
    constructor
    · rw [hF]
      simp [fetchF, hrows]
    · rw [hmain]
      simp [specFetch, hrows]

/-- Witness for C9 amended at the sample table, Tennessee district 3. -/
theorem c9_amended_equivalence_witness :
    WFTable sampleTable ∧
    (retrieveN sampleTable allNet "TN" (3 : Nat)).1 =
      [Eff.httpGet (baseUrl ++ "TN" ++ pad2 ((3 : Nat) : Int))] ∧
    (retrieveF (pairsOf sampleTable) allNet "TN" ((3 : Nat) : Int)).1 =
      [Eff.httpGet (baseUrl ++ "TN" ++ pad2 ((3 : Nat) : Int))] := by
  refine ⟨by decide, ?_, ?_⟩
  · exact (c9_amended_equivalence sampleTable allNet (by decide) ⟨"Tennessee", "TN", 7⟩
      (by decide) 3 (by decide) (by decide)).2.1
  · exact (c9_amended_equivalence sampleTable allNet (by decide) ⟨"Tennessee", "TN", 7⟩
      (by decide) 3 (by decide) (by decide)).2.2.1

/-- Claim C10: whenever the Notebook retrieval fails with a
district-out-of-range error (non-positive district or district above the
matched state's seat count), no HTTP request has been issued — the effect
trace contains no request — and no row set is produced. -/
theorem c10_no_fetch_on_district_error (tbl : List StateRecord)
    (net : String → Option (List RawRow)) (state : String) (d : Int) (msg : String)
    (hmsg : msg = districtPositiveMsg ∨ ∃ nm n, msg = outOfRangeMsg nm n)
    (h : (retrieveN tbl net state d).2 = .error (.valueError msg)) :
    (∀ url, Eff.httpGet url ∉ (retrieveN tbl net state d).1) ∧
    ∀ rows, (retrieveN tbl net state d).2 ≠ .ok rows := by
  have htr := (retrieveN_valueError_shape tbl net state d msg h).1
  constructor
  · intro url hmem
    rw [htr] at hmem
    cases hmem
  · intro rows hcon
    rw [h] at hcon
    cases hcon

/-- Witness for C10 at "TN" district 8 over the sample table. -/
theorem c10_no_fetch_on_district_error_witness :
    ((outOfRangeMsg "Tennessee" 7 = districtPositiveMsg ∨
      ∃ nm n, outOfRangeMsg "Tennessee" 7 = outOfRangeMsg nm n) ∧
    (retrieveN sampleTable allNet "TN" 8).2 =
      .error (.valueError (outOfRangeMsg "Tennessee" 7))) ∧
    ((∀ url, Eff.httpGet url ∉ (retrieveN sampleTable allNet "TN" 8).1) ∧
      ∀ rows, (retrieveN sampleTable allNet "TN" 8).2 ≠ .ok rows) := by
  have hmsg : outOfRangeMsg "Tennessee" 7 = districtPositiveMsg ∨
      ∃ nm n, outOfRangeMsg "Tennessee" 7 = outOfRangeMsg nm n :=
    Or.inr ⟨"Tennessee", 7, rfl⟩
  have hres : (retrieveN sampleTable allNet "TN" 8).2 =
      .error (.valueError (outOfRangeMsg "Tennessee" 7)) := by decide
  exact ⟨⟨hmsg, hres⟩,
    c10_no_fetch_on_district_error sampleTable allNet "TN" 8 _ hmsg hres⟩

end OpenSecrets
